import Mathlib

/-!
Verification of the gh-sandboxd per-request execution pipeline.

The Go source is shallowly embedded: Go strings become lists of characters
(`GoStr`), pure string manipulation (path cleaning, console parsing, boot
argument construction) becomes Lean functions translated from the source, and
the effectful `runHandler` becomes a function of an explicit environment
(`EnvC1`) recording the outcome of each IO interaction (mount, write, PUT to
the hypervisor control socket, console snapshots read by the poll loops, and
the winner of the final `select` race), producing the HTTP response plus a
trace of lifecycle events.
-/

/-! ## Go strings as character lists -/

abbrev GoStr := List Char

def gs (s : String) : GoStr := s.toList

/-- Embedding of Go `strings.Contains` (substring search). -/
def strContains (hay needle : GoStr) : Bool :=
  match hay with
  | [] => needle.isEmpty
  | _ :: rest => needle.isPrefixOf hay || strContains rest needle

/-- Embedding of Go `strings.Split(s, sep)` for a one-character separator:
splits on every occurrence, keeping empty fields. -/
def splitOnChar (sep : Char) : GoStr → List GoStr
  | [] => [[]]
  | c :: rest =>
    if c = sep then [] :: splitOnChar sep rest
    else
      match splitOnChar sep rest with
      | l :: ls => (c :: l) :: ls
      | [] => [[c]]

/-- Embedding of Go `strings.Join(xs, sep)` for a one-character separator. -/
def joinWith (sep : Char) : List GoStr → GoStr
  | [] => []
  | [x] => x
  | x :: y :: xs => x ++ sep :: joinWith sep (y :: xs)

/-- Embedding of `strings.ReplaceAll(s, "\r\n", "\n")` (left-to-right,
non-overlapping). -/
def normCRLF : GoStr → GoStr
  | [] => []
  | '\r' :: '\n' :: rest => '\n' :: normCRLF rest
  | c :: rest => c :: normCRLF rest

def goIsSpace (c : Char) : Bool :=
  c = ' ' || c = '\t' || c = '\n' || c = '\x0b' || c = '\x0c' || c = '\r'

/-- Embedding of Go `strings.TrimSpace` (ASCII fragment). -/
def trimSpace (s : GoStr) : GoStr :=
  ((s.dropWhile goIsSpace).reverse.dropWhile goIsSpace).reverse

def isDigitCh (c : Char) : Bool := '0' ≤ c && c ≤ '9'

def digitsToNat (s : GoStr) : Nat :=
  s.foldl (fun a c => a * 10 + (c.toNat - 48)) 0

/-- Embedding of Go `strconv.Atoi` on a 64-bit platform: returns the parsed
value together with an ok flag (`false` models a non-nil error). On syntax
errors the value is 0; on range errors it is the clamped 64-bit bound,
mirroring `strconv.ParseInt`. -/
def goAtoi (s : GoStr) : Int × Bool :=
  match s with
  | [] => (0, false)
  | c :: rest =>
    let p : Bool × GoStr :=
      if c = '+' then (false, rest) else if c = '-' then (true, rest) else (false, s)
    let neg := p.1
    let ds := p.2
    if ds = [] || !(ds.all isDigitCh) then (0, false)
    else
      let n := digitsToNat ds
      if neg then
        if n > 2 ^ 63 then (-(2 ^ 63 : Int), false) else (-(n : Int), true)
      else
        if n ≥ 2 ^ 63 then ((2 ^ 63 : Int) - 1, false) else ((n : Int), true)

/-! ## Path model: `path/filepath` on unix, translated from the Go stdlib -/

/-- Go `filepath.IsAbs` on unix: `strings.HasPrefix(path, "/")`. -/
def isAbs (p : GoStr) : Bool :=
  match p with
  | '/' :: _ => true
  | _ => false

/-- Scanner for the non-empty separator-delimited elements of a path, as
walked by `filepath.Clean` / `filepath.Rel`: maximal runs of non-`/` bytes. -/
def splitcAux : GoStr → GoStr → List GoStr
  | cur, [] => if cur = [] then [] else [cur.reverse]
  | cur, c :: rest =>
    if c = '/' then
      (if cur = [] then splitcAux [] rest else cur.reverse :: splitcAux [] rest)
    else splitcAux (c :: cur) rest

def splitc (p : GoStr) : List GoStr := splitcAux [] p

/-- The element loop of Go `filepath.Clean` (lazybuf), at the level of path
elements. `acc` is the output buffer, most recent element first. On `".."` the
buffer is popped when it holds an element beyond the protected prefix (the
root when `rooted`, else the run of leading `".."`s); otherwise `".."` is
appended in the non-rooted case and dropped in the rooted case. -/
def cleanComps (rooted : Bool) : List GoStr → List GoStr → List GoStr
  | acc, [] => acc.reverse
  | acc, c :: rest =>
    if c = gs "." then cleanComps rooted acc rest
    else if c = gs ".." then
      match acc with
      | [] => cleanComps rooted (if rooted then [] else [gs ".."]) rest
      | a :: tl =>
        if a = gs ".." && !rooted then cleanComps rooted (gs ".." :: a :: tl) rest
        else cleanComps rooted tl rest
    else cleanComps rooted (c :: acc) rest

/-- Embedding of Go `filepath.Clean` on unix. -/
def pathClean (p : GoStr) : GoStr :=
  if p = [] then gs "."
  else
    let rooted := isAbs p
    let cs := cleanComps rooted [] (splitc p)
    if rooted then '/' :: joinWith '/' cs
    else if cs = [] then gs "." else joinWith '/' cs

/-- Embedding of Go `filepath.Join(a, b)` on unix: the elements from the first
non-empty one are joined with `/` and the result cleaned. -/
def pathJoin (a b : GoStr) : GoStr :=
  if a ≠ [] then pathClean (a ++ '/' :: b)
  else if b ≠ [] then pathClean b
  else []

deriving instance DecidableEq for Except

def relErrMsg (targpath basepath : GoStr) : GoStr :=
  gs "Rel: can't make " ++ targpath ++ gs " relative to " ++ basepath

/-- Tail of Go `filepath.Rel` once the first differing elements are found:
`bs` are the remaining base elements, `ts` the remaining target elements. -/
def relFinish (targpath basepath : GoStr) :
    List GoStr → List GoStr → Except GoStr GoStr
  | [], ts => .ok (joinWith '/' ts)
  | b :: bs, ts =>
    if b = gs ".." then .error (relErrMsg targpath basepath)
    else .ok (joinWith '/' (List.replicate (bs.length + 1) (gs "..") ++ ts))

/-- The common-prefix loop of Go `filepath.Rel`. -/
def relLoop (targpath basepath : GoStr) :
    List GoStr → List GoStr → Except GoStr GoStr
  | b :: bs, t :: ts =>
    if b = t then relLoop targpath basepath bs ts
    else relFinish targpath basepath (b :: bs) (t :: ts)
  | bs, ts => relFinish targpath basepath bs ts

/-- Embedding of Go `filepath.Rel` on unix. -/
def pathRel (basepath targpath : GoStr) : Except GoStr GoStr :=
  let base := pathClean basepath
  let targ := pathClean targpath
  if targ = base then .ok (gs ".")
  else
    if isAbs base ≠ isAbs targ then .error (relErrMsg targpath basepath)
    else
      let bs := if base = gs "." then [] else splitc base
      let ts := splitc targ
      relLoop targpath basepath bs ts

/-- Embedding of `resolveWorkPath` (src/main.go:177-194); the local
`clean := filepath.Clean(name)` and `targetPath := filepath.Join(workDir, clean)`
are written inline. -/
def resolveWorkPath (workDir name : GoStr) : Except GoStr GoStr :=
  if name = [] then .error (gs "file name is empty")
  else if isAbs name then .error (gs "absolute paths are not allowed")
  else if pathClean name = gs "." ∨ pathClean name = gs ".." ∨
      (gs "../").isPrefixOf (pathClean name) then
    .error (gs "path traversal is not allowed")
  else
    match pathRel workDir (pathJoin workDir (pathClean name)) with
    | .error _ => .error (gs "path escapes work dir")
    | .ok rel =>
      if rel = gs ".." ∨ (gs "../").isPrefixOf rel then
        .error (gs "path escapes work dir")
      else .ok (pathJoin workDir (pathClean name))

example : pathClean (gs "a/../b") = gs "b" := by decide
example : pathClean (gs "a//b/./c/..") = gs "a/b" := by decide
example : pathClean (gs "../../x") = gs "../../x" := by decide
example : pathClean (gs "/a/../../b") = gs "/b" := by decide
example : pathClean (gs "") = gs "." := by decide
example : pathClean (gs "/") = gs "/" := by decide
example : pathJoin (gs "/w") (gs "b") = gs "/w/b" := by decide
example : pathRel (gs "/a/b") (gs "/a/b/c/d") = .ok (gs "c/d") := by decide
example : pathRel (gs "/a/b") (gs "/a/x") = .ok (gs "../x") := by decide
example : pathRel (gs "/a/b") (gs "/a") = .ok (gs "..") := by decide
example : pathRel (gs "a") (gs "/b") = .error (relErrMsg (gs "/b") (gs "a")) := by
  decide
example :
    resolveWorkPath (gs "/m/work") (gs "sub/../f.txt") = .ok (gs "/m/work/f.txt") := by
  decide
example :
    resolveWorkPath (gs "/m/work") (gs "../evil") =
      .error (gs "path traversal is not allowed") := by decide
example :
    resolveWorkPath (gs "/m/work") (gs "a/../../evil") =
      .error (gs "path traversal is not allowed") := by decide
example :
    resolveWorkPath (gs "/m/work") (gs "/abs") =
      .error (gs "absolute paths are not allowed") := by decide

/-! ## Console parsing (variant C1, src/main.go:122-175 and part_003:114-155) -/

def exitMarker : GoStr := gs "[guest] exit code:"
def haltedMarker : GoStr := gs "reboot: System halted"
def panicMarker : GoStr := gs "Kernel panic"
def initMarker : GoStr := gs "[guest] init started"

/-- The line loop of `waitForGuestCompletion`: the first line that starts with
`"[guest] exit code:"` and splits on `":"` into exactly two parts yields the
`Atoi` of its trimmed second part (the parse error being discarded); a
prefixed line with more colons is skipped. -/
def findExitLine : List GoStr → Option Int
  | [] => none
  | line :: rest =>
    if exitMarker.isPrefixOf line then
      match splitOnChar ':' line with
      | [_, p1] => some (goAtoi (trimSpace p1)).1
      | _ => findExitLine rest
    else findExitLine rest

/-- One poll iteration of `waitForGuestCompletion` (src/main.go:146-175) over a
normalized console snapshot: `some (text, code)` when an end-of-wait condition
fires, `none` to keep polling. -/
def scanConsole (text : GoStr) : Option (GoStr × Int) :=
  match findExitLine (splitOnChar '\n' text) with
  | some code => some (text, code)
  | none =>
    if strContains text haltedMarker then some (text, 0) else none

/-- Embedding of `waitForGuestCompletion` (src/main.go:146-175). Each poll of
the loop reads a console snapshot (`none` models a `ReadFile` error, which the
loop skips); the snapshot list is bounded by the deadline. When no snapshot
fires an end condition, the final read is returned with exit code 124 and the
timeout error. -/
def waitForGuestCompletion (snapshots : List (Option GoStr)) (finalRead : GoStr) :
    GoStr × Int × Option GoStr :=
  match snapshots with
  | [] => (normCRLF finalRead, 124, some (gs "timeout waiting for guest completion"))
  | none :: rest => waitForGuestCompletion rest finalRead
  | some b :: rest =>
    match scanConsole (normCRLF b) with
    | some (text, code) => (text, code, none)
    | none => waitForGuestCompletion rest finalRead

/-- Filter of the v0 completion waiter (part_003:127-128): keep lines that
start with `"[guest]"` or contain `"hello from microvm"`. -/
def guestLineFilter (l : GoStr) : Bool :=
  (gs "[guest]").isPrefixOf l || strContains l (gs "hello from microvm")

/-- One poll iteration of the v0 `waitForGuestCompletion` (part_003:116-155):
the guest lines are filtered first, the exit marker is searched among them,
and the returned stdout is the filtered lines joined by newlines plus a
trailing newline. -/
def scanConsoleV0 (text : GoStr) : Option (GoStr × Int) :=
  match findExitLine ((splitOnChar '\n' text).filter guestLineFilter) with
  | some code =>
    some (joinWith '\n' ((splitOnChar '\n' text).filter guestLineFilter) ++ ['\n'], code)
  | none =>
    if strContains text haltedMarker then
      some (joinWith '\n' ((splitOnChar '\n' text).filter guestLineFilter) ++ ['\n'], 0)
    else none

/-- Embedding of the v0 `waitForGuestCompletion` (part_003:116-155). On
timeout the raw final read is returned without CRLF normalization. -/
def waitForGuestCompletionV0 (snapshots : List (Option GoStr)) (finalRead : GoStr) :
    GoStr × Int × Option GoStr :=
  match snapshots with
  | [] => (finalRead, 124, some (gs "timeout waiting for guest completion"))
  | none :: rest => waitForGuestCompletionV0 rest finalRead
  | some b :: rest =>
    match scanConsoleV0 (normCRLF b) with
    | some (text, code) => (text, code, none)
    | none => waitForGuestCompletionV0 rest finalRead

/-- One poll iteration of `waitForGuestInitStarted` (src/main.go:125-144). -/
def scanInit (text : GoStr) : Option (Except GoStr Unit) :=
  if strContains text initMarker then some (.ok ())
  else if strContains text panicMarker || strContains text haltedMarker then
    some (.error (gs "guest did not reach init started (halt/panic)"))
  else none

/-- Embedding of `waitForGuestInitStarted` (src/main.go:125-144): polls console
snapshots for the init marker, bailing out early on a halt/panic, and failing
with the timeout error when the 5 s deadline bounds the snapshot list. -/
def waitForGuestInitStarted (snapshots : List (Option GoStr)) : Except GoStr Unit :=
  match snapshots with
  | [] => .error (gs "timeout waiting for guest init started")
  | none :: rest => waitForGuestInitStarted rest
  | some b :: rest =>
    match scanInit (normCRLF b) with
    | some r => r
    | none => waitForGuestInitStarted rest

/-! ## The request handler (variant C1, src/main.go:198-402) -/

structure RunRequest where
  cmd : GoStr
  files : List (GoStr × GoStr)
  timeoutMs : Int
deriving DecidableEq

structure RunResponse where
  stdout : GoStr
  stderr : GoStr
  exitCode : Int
deriving DecidableEq

/-- HTTP outcome of the handler: `httpErr` is a plain-text `http.Error`
response, `ok` a JSON-encoded `RunResponse` with status 200. -/
inductive HResp
  | httpErr (status : Nat) (msg : GoStr)
  | ok (resp : RunResponse)
deriving DecidableEq

/-- Lifecycle events traced by the handler model. -/
inductive Ev
  | startFC
  | socketReady
  | putCall (endpoint : GoStr) (ok : Bool)
  | bootWait (timeoutMs : Int) (ok : Bool)
  | execTimer (ms : Int)
  | killFC
  | waitFC
deriving DecidableEq

/-- Environment of one request: the outcome of every IO interaction the
handler performs, in program order. `none` in an error field means success.
`doneFirst` resolves the final `select` race between the completion goroutine
closing `done` and the deadline timer firing. -/
structure EnvC1 where
  mkdirTempErr : Option GoStr
  mountDir : GoStr
  mountErr : Option GoStr
  mkdirWorkErr : Option GoStr
  writeErr : GoStr → Option GoStr
  chmodErr : GoStr → Option GoStr
  unmountErr : Option GoStr
  startErr : Option GoStr
  socketErr : Option GoStr
  putErr : GoStr → Option GoStr
  initSnapshots : List (Option GoStr)
  execSnapshots : List (Option GoStr)
  finalConsole : GoStr
  doneFirst : Bool

/-- The file-staging loop of `runHandler` (src/main.go:240-259): resolve each
name under the work dir, write it, and chmod shebang files; the first failure
aborts with the HTTP status and message the handler surfaces. -/
def stageLoop (workDir : GoStr) (env : EnvC1) :
    List (GoStr × GoStr) → Except (Nat × GoStr) Unit
  | [] => .ok ()
  | (name, content) :: rest =>
    match resolveWorkPath workDir name with
    | .error e => .error (400, e)
    | .ok _ =>
      match env.writeErr name with
      | some e => .error (500, e)
      | none =>
        if (gs "#!").isPrefixOf content then
          match env.chmodErr name with
          | some e => .error (500, e)
          | none => stageLoop workDir env rest
        else stageLoop workDir env rest

/-- `runHandler` up to (and including) the unmount that precedes
`startFirecracker` (src/main.go:199-264): `some r` is an early return. -/
def stagePhase (req : RunRequest) (env : EnvC1) : Option HResp :=
  if req.cmd = [] then some (.httpErr 400 (gs "cmd is required"))
  else
    match env.mkdirTempErr with
    | some e => some (.httpErr 500 e)
    | none =>
      match env.mountErr with
      | some e => some (.httpErr 500 e)
      | none =>
        match env.mkdirWorkErr with
        | some e => some (.httpErr 500 e)
        | none =>
          match stageLoop (env.mountDir ++ gs "/work") env req.files with
          | .error (s, m) => some (.httpErr s m)
          | .ok _ =>
            match env.unmountErr with
            | some e => some (.httpErr 500 e)
            | none => none

def fcEndpoints : List GoStr :=
  [gs "/machine-config", gs "/boot-source", gs "/drives/rootfs", gs "/actions"]

/-- The guest command and boot-arguments string (src/main.go:294-301): the
command is prefixed with `cd /work && ` exactly when the request carries
files, and is spliced into the kernel arguments wrapped in double quotes. -/
def cmdForGuest (req : RunRequest) : GoStr :=
  if req.files.length > 0 then gs "cd /work && " ++ req.cmd else req.cmd

def bootArgsOf (req : RunRequest) : GoStr :=
  gs "console=ttyS0 quiet loglevel=0 reboot=k panic=1 pci=off init=/sbin/init CMD=\"" ++
    cmdForGuest req ++ gs "\""

/-- The configuration phase of `runHandler` (src/main.go:280-326): wait for
the control socket, then the four ordered PUT calls. An error carries the
response and the trace of the phase. -/
def configPhase (env : EnvC1) : Except (HResp × List Ev) (List Ev) :=
  match env.socketErr with
  | some e => .error (.httpErr 500 e, [])
  | none =>
    match env.putErr (gs "/machine-config") with
    | some e =>
      .error (.httpErr 500 e, [.socketReady, .putCall (gs "/machine-config") false])
    | none =>
      match env.putErr (gs "/boot-source") with
      | some e =>
        .error (.httpErr 500 e,
          [.socketReady, .putCall (gs "/machine-config") true,
           .putCall (gs "/boot-source") false])
      | none =>
        match env.putErr (gs "/drives/rootfs") with
        | some e =>
          .error (.httpErr 500 e,
            [.socketReady, .putCall (gs "/machine-config") true,
             .putCall (gs "/boot-source") true, .putCall (gs "/drives/rootfs") false])
        | none =>
          match env.putErr (gs "/actions") with
          | some e =>
            .error (.httpErr 500 e,
              [.socketReady, .putCall (gs "/machine-config") true,
               .putCall (gs "/boot-source") true, .putCall (gs "/drives/rootfs") true,
               .putCall (gs "/actions") false])
          | none =>
            .ok [.socketReady, .putCall (gs "/machine-config") true,
                 .putCall (gs "/boot-source") true, .putCall (gs "/drives/rootfs") true,
                 .putCall (gs "/actions") true]

def effTimeout (req : RunRequest) : Int :=
  if req.timeoutMs ≤ 0 then 5000 else req.timeoutMs

/-- The execution phase of `runHandler` (src/main.go:328-401): the 5 s boot
grace wait, then the `timeout_ms` execution timer raced in a `select` against
the completion goroutine. `env.doneFirst` names the `select` winner. -/
def execPhase (req : RunRequest) (env : EnvC1) : RunResponse × List Ev :=
  match waitForGuestInitStarted env.initSnapshots with
  | .error e => (⟨[], gs "boot timeout: " ++ e, 124⟩, [.bootWait 5000 false])
  | .ok _ =>
    let r := waitForGuestCompletion env.execSnapshots env.finalConsole
    if env.doneFirst then
      (⟨r.1, (r.2.2).getD [], r.2.1⟩,
       [.bootWait 5000 true, .execTimer (effTimeout req), .killFC, .waitFC])
    else
      (⟨[], gs "execution timed out", 124⟩,
       [.bootWait 5000 true, .execTimer (effTimeout req), .killFC, .waitFC])

/-- Embedding of `runHandler` (src/main.go:198-402) for a decoded POST body:
staging, hypervisor spawn, configuration, and execution, with the deferred
kill-and-reap of the hypervisor child appended to every post-spawn path. -/
def runHandler (req : RunRequest) (env : EnvC1) : HResp × List Ev :=
  match stagePhase req env with
  | some r => (r, [])
  | none =>
    match env.startErr with
    | some e => (.httpErr 500 e, [])
    | none =>
      match configPhase env with
      | .error (r, t) => (r, .startFC :: t ++ [.killFC, .waitFC])
      | .ok t =>
        let p := execPhase req env
        (.ok p.1, .startFC :: t ++ p.2 ++ [.killFC, .waitFC])

/-! ## Basic lemmas about the string model -/

lemma isPrefixOf_self (l : GoStr) : l.isPrefixOf l = true := by
  rw [List.isPrefixOf_iff_prefix]

lemma isPrefixOf_append_ext (l m k : GoStr)
    (h : l.isPrefixOf m = true) : l.isPrefixOf (m ++ k) = true := by
  rw [List.isPrefixOf_iff_prefix] at h ⊢
  exact h.trans (List.prefix_append m k)

lemma strContains_nil_needle (hay : GoStr) : strContains hay [] = true := by
  cases hay with
  | nil => rfl
  | cons c rest => simp [strContains, List.isPrefixOf]

lemma strContains_self (x : GoStr) : strContains x x = true := by
  cases x with
  | nil => rfl
  | cons c rest => simp [strContains, isPrefixOf_self]

lemma strContains_append_of_right (a b n : GoStr)
    (h : strContains b n = true) : strContains (a ++ b) n = true := by
  induction a with
  | nil => simpa using h
  | cons c a ih => simp [strContains, Bool.or_eq_true]; right; exact ih

lemma strContains_append_of_left (a n : GoStr) :
    ∀ b : GoStr, strContains a n = true → strContains (a ++ b) n = true := by
  induction a with
  | nil =>
    intro b h
    simp [strContains, List.isEmpty_iff] at h
    subst h
    exact strContains_nil_needle b
  | cons c a ih =>
    intro b h
    simp only [strContains, Bool.or_eq_true] at h ⊢
    rcases h with h | h
    · exact Or.inl (isPrefixOf_append_ext _ _ _ h)
    · exact Or.inr (ih b h)

/-! ## Claim theorems -/

/-- Claim C8: for every request, the boot-arguments string contains the
literal tokens `console=ttyS0`, `reboot=k`, `panic=1`, `pci=off`,
`init=/sbin/init`, and the argument `CMD="<cmd>"` with the guest command
wrapped in double quotes, where the embedded command is the caller's `cmd`
prefixed by `cd /work && ` exactly when the request's files mapping is
non-empty. -/
theorem bootArgs_correct (req : RunRequest) :
    bootArgsOf req =
      gs "console=ttyS0 quiet loglevel=0 reboot=k panic=1 pci=off init=/sbin/init CMD=\"" ++
        cmdForGuest req ++ gs "\"" ∧
    cmdForGuest req =
      (if req.files.length > 0 then gs "cd /work && " ++ req.cmd else req.cmd) ∧
    strContains (bootArgsOf req) (gs "console=ttyS0") = true ∧
    strContains (bootArgsOf req) (gs "reboot=k") = true ∧
    strContains (bootArgsOf req) (gs "panic=1") = true ∧
    strContains (bootArgsOf req) (gs "pci=off") = true ∧
    strContains (bootArgsOf req) (gs "init=/sbin/init") = true ∧
    strContains (bootArgsOf req) (gs "CMD=\"" ++ cmdForGuest req ++ gs "\"") = true := by
  refine ⟨rfl, rfl, ?_, ?_, ?_, ?_, ?_, ?_⟩
  · show strContains
      (gs "console=ttyS0 quiet loglevel=0 reboot=k panic=1 pci=off init=/sbin/init CMD=\"" ++
        cmdForGuest req ++ gs "\"") _ = true
    rw [List.append_assoc]
    exact strContains_append_of_left _ _ _ (by decide)
  · show strContains
      (gs "console=ttyS0 quiet loglevel=0 reboot=k panic=1 pci=off init=/sbin/init CMD=\"" ++
        cmdForGuest req ++ gs "\"") _ = true
    rw [List.append_assoc]
    exact strContains_append_of_left _ _ _ (by decide)
  · show strContains
      (gs "console=ttyS0 quiet loglevel=0 reboot=k panic=1 pci=off init=/sbin/init CMD=\"" ++
        cmdForGuest req ++ gs "\"") _ = true
    rw [List.append_assoc]
    exact strContains_append_of_left _ _ _ (by decide)
  · show strContains
      (gs "console=ttyS0 quiet loglevel=0 reboot=k panic=1 pci=off init=/sbin/init CMD=\"" ++
        cmdForGuest req ++ gs "\"") _ = true
    rw [List.append_assoc]
    exact strContains_append_of_left _ _ _ (by decide)
  · show strContains
      (gs "console=ttyS0 quiet loglevel=0 reboot=k panic=1 pci=off init=/sbin/init CMD=\"" ++
        cmdForGuest req ++ gs "\"") _ = true
    rw [List.append_assoc]
    exact strContains_append_of_left _ _ _ (by decide)
  · show strContains
      (gs "console=ttyS0 quiet loglevel=0 reboot=k panic=1 pci=off init=/sbin/init CMD=\"" ++
        cmdForGuest req ++ gs "\"") _ = true
    have hsplit :
        gs "console=ttyS0 quiet loglevel=0 reboot=k panic=1 pci=off init=/sbin/init CMD=\"" =
          gs "console=ttyS0 quiet loglevel=0 reboot=k panic=1 pci=off init=/sbin/init " ++
            gs "CMD=\"" := by decide
    rw [hsplit, List.append_assoc, List.append_assoc, ← List.append_assoc (gs "CMD=\"")]
    exact strContains_append_of_right _ _ _ (strContains_self _)

/-! ## Handler-shape lemmas -/

lemma stagePhase_some_shape (req : RunRequest) (env : EnvC1) (r : HResp)
    (h : stagePhase req env = some r) : ∃ s m, r = .httpErr s m := by
  unfold stagePhase at h
  split at h
  · exact ⟨400, gs "cmd is required", by simpa using h.symm⟩
  · split at h
    · next e he => exact ⟨500, e, by simpa using h.symm⟩
    · split at h
      · next e he => exact ⟨500, e, by simpa using h.symm⟩
      · split at h
        · next e he => exact ⟨500, e, by simpa using h.symm⟩
        · split at h
          · next s m hsm => exact ⟨s, m, by simpa using h.symm⟩
          · split at h
            · next e he => exact ⟨500, e, by simpa using h.symm⟩
            · simp at h

lemma configPhase_ok_trace (env : EnvC1) (t : List Ev)
    (h : configPhase env = .ok t) :
    t = [.socketReady, .putCall (gs "/machine-config") true,
         .putCall (gs "/boot-source") true, .putCall (gs "/drives/rootfs") true,
         .putCall (gs "/actions") true] := by
  unfold configPhase at h
  repeat' split at h
  all_goals simp_all

lemma execPhase_trace (req : RunRequest) (env : EnvC1) :
    (execPhase req env).2 = [.bootWait 5000 false] ∨
    (execPhase req env).2 =
      [.bootWait 5000 true, .execTimer (effTimeout req), .killFC, .waitFC] := by
  unfold execPhase
  cases h : waitForGuestInitStarted env.initSnapshots with
  | error e => left; rfl
  | ok u => right; cases env.doneFirst <;> simp

lemma waitCompletion_timeout_shape (final : GoStr) :
    ∀ snapshots : List (Option GoStr),
      (waitForGuestCompletion snapshots final).2.2 ≠ none →
      waitForGuestCompletion snapshots final =
        (normCRLF final, 124, some (gs "timeout waiting for guest completion")) := by
  intro snapshots
  induction snapshots with
  | nil => intro _; rfl
  | cons o rest ih =>
    intro h
    cases o with
    | none => exact ih h
    | some b =>
      cases hs : scanConsole (normCRLF b) with
      | none =>
        rw [waitForGuestCompletion, hs] at h ⊢
        exact ih h
      | some tc =>
        rw [waitForGuestCompletion, hs] at h
        simp at h

/-- Claim C6: on every exit path of `runHandler` taken after the hypervisor
child was spawned successfully (success, timeout, boot failure, configuration
error), the trace ends with the child being force-killed and reaped via wait
before the handler returns. -/
theorem hypervisorKilled_on_exit (req : RunRequest) (env : EnvC1)
    (h : Ev.startFC ∈ (runHandler req env).2) :
    ∃ u, (runHandler req env).2 = Ev.startFC :: u ++ [Ev.killFC, Ev.waitFC] := by
  unfold runHandler at h ⊢
  cases hs : stagePhase req env with
  | some r => rw [hs] at h; simp at h
  | none =>
    rw [hs] at h
    cases he : env.startErr with
    | some e => rw [he] at h; simp at h
    | none =>
      rw [he] at h
      cases hc : configPhase env with
      | error a => obtain ⟨r, t⟩ := a; exact ⟨t, by simp⟩
      | ok t => exact ⟨t ++ (execPhase req env).2, by simp [List.append_assoc]⟩

def benignEnvW : EnvC1 where
  mkdirTempErr := none
  mountDir := gs "/tmp/rootfs-mount-1"
  mountErr := none
  mkdirWorkErr := none
  writeErr := fun _ => none
  chmodErr := fun _ => none
  unmountErr := none
  startErr := none
  socketErr := none
  putErr := fun _ => none
  initSnapshots := [some (gs "[guest] init started")]
  execSnapshots := [some (gs "[guest] exit code: 0")]
  finalConsole := []
  doneFirst := true

def echoReqW : RunRequest := ⟨gs "echo hi", [], 2000⟩

theorem hypervisorKilled_on_exit_witness :
    ∃ u, (runHandler echoReqW benignEnvW).2 =
      Ev.startFC :: u ++ [Ev.killFC, Ev.waitFC] :=
  hypervisorKilled_on_exit echoReqW benignEnvW (by decide)

lemma configPhase_error_shape (env : EnvC1) (r : HResp) (t : List Ev)
    (h : configPhase env = .error (r, t)) :
    (∃ m, r = .httpErr 500 m) ∧
    (t = [] ∨
     t = [.socketReady, .putCall (gs "/machine-config") false] ∨
     t = [.socketReady, .putCall (gs "/machine-config") true,
          .putCall (gs "/boot-source") false] ∨
     t = [.socketReady, .putCall (gs "/machine-config") true,
          .putCall (gs "/boot-source") true, .putCall (gs "/drives/rootfs") false] ∨
     t = [.socketReady, .putCall (gs "/machine-config") true,
          .putCall (gs "/boot-source") true, .putCall (gs "/drives/rootfs") true,
          .putCall (gs "/actions") false]) := by
  unfold configPhase at h
  repeat' split at h
  all_goals
    first
      | (simp only [Except.error.injEq, Prod.mk.injEq] at h
         exact ⟨⟨_, h.1.symm⟩, by simp [h.2.symm]⟩)
      | simp at h

/-- Claim C7: the handler waits up to 5 s (the constant passed to the boot
wait) for the `[guest] init started` marker; a failed boot wait yields stdout
`""`, exit code 124 and a stderr beginning with `"boot timeout: "`, and the
`timeout_ms` execution timer is started only after a successful boot wait, so
the boot-grace interval is not charged against `timeout_ms`. -/
theorem bootGrace_uncharged :
    (∀ (req : RunRequest) (env : EnvC1) (e : GoStr) (t : List Ev),
      stagePhase req env = none → env.startErr = none → configPhase env = .ok t →
      waitForGuestInitStarted env.initSnapshots = .error e →
      (runHandler req env).1 = .ok ⟨[], gs "boot timeout: " ++ e, 124⟩ ∧
      (gs "boot timeout: ").isPrefixOf (gs "boot timeout: " ++ e) = true ∧
      (∀ m, Ev.execTimer m ∉ (runHandler req env).2)) ∧
    (∀ (req : RunRequest) (env : EnvC1) (m : Int),
      Ev.execTimer m ∈ (runHandler req env).2 →
      m = effTimeout req ∧
      ∃ u v, (runHandler req env).2 =
        u ++ Ev.bootWait 5000 true :: Ev.execTimer (effTimeout req) :: v) := by
  constructor
  · intro req env e t h1 h2 h3 h4
    have hexec : execPhase req env =
        (⟨[], gs "boot timeout: " ++ e, 124⟩, [.bootWait 5000 false]) := by
      unfold execPhase; rw [h4]
    have ht := configPhase_ok_trace env t h3
    refine ⟨?_, isPrefixOf_append_ext _ _ _ (isPrefixOf_self _), ?_⟩
    · simp [runHandler, h1, h2, h3, hexec]
    · intro m
      subst ht
      simp [runHandler, h1, h2, h3, hexec]
  · intro req env m h
    cases hs : stagePhase req env with
    | some r =>
      have htr : (runHandler req env).2 = [] := by unfold runHandler; rw [hs]
      rw [htr] at h; simp at h
    | none =>
      cases he : env.startErr with
      | some e =>
        have htr : (runHandler req env).2 = [] := by unfold runHandler; rw [hs, he]
        rw [htr] at h; simp at h
      | none =>
        cases hc : configPhase env with
        | error a =>
          obtain ⟨r, t⟩ := a
          have htr : (runHandler req env).2 =
              Ev.startFC :: t ++ [Ev.killFC, Ev.waitFC] := by
            unfold runHandler; rw [hs, he, hc]
          rw [htr] at h
          obtain ⟨-, ht⟩ := configPhase_error_shape env r t hc
          rcases ht with ht | ht | ht | ht | ht <;> (subst ht; simp at h)
        | ok t =>
          have htr : (runHandler req env).2 =
              Ev.startFC :: t ++ (execPhase req env).2 ++ [Ev.killFC, Ev.waitFC] := by
            unfold runHandler; rw [hs, he, hc]
          have ht := configPhase_ok_trace env t hc
          subst ht
          rcases execPhase_trace req env with he2 | he2 <;> rw [he2] at htr <;> rw [htr] at h
          · simp at h
          · simp at h
            subst h
            refine ⟨rfl, ?_⟩
            refine ⟨Ev.startFC :: [Ev.socketReady, .putCall (gs "/machine-config") true,
              .putCall (gs "/boot-source") true, .putCall (gs "/drives/rootfs") true,
              .putCall (gs "/actions") true], [Ev.killFC, Ev.waitFC, Ev.killFC, Ev.waitFC], ?_⟩
            rw [htr]
            simp

def bootFailEnvW : EnvC1 := { benignEnvW with initSnapshots := [] }

theorem bootGrace_uncharged_witness :
    ((runHandler echoReqW bootFailEnvW).1 =
      .ok ⟨[], gs "boot timeout: " ++ gs "timeout waiting for guest init started", 124⟩ ∧
     (gs "boot timeout: ").isPrefixOf
       (gs "boot timeout: " ++ gs "timeout waiting for guest init started") = true ∧
     (∀ m, Ev.execTimer m ∉ (runHandler echoReqW bootFailEnvW).2)) ∧
    ((2000 : Int) = effTimeout echoReqW ∧
     ∃ u v, (runHandler echoReqW benignEnvW).2 =
       u ++ Ev.bootWait 5000 true :: Ev.execTimer (effTimeout echoReqW) :: v) :=
  ⟨bootGrace_uncharged.1 echoReqW bootFailEnvW
      (gs "timeout waiting for guest init started")
      [Ev.socketReady, .putCall (gs "/machine-config") true,
       .putCall (gs "/boot-source") true, .putCall (gs "/drives/rootfs") true,
       .putCall (gs "/actions") true]
      (by decide) (by decide) (by decide) (by decide),
   bootGrace_uncharged.2 echoReqW benignEnvW 2000 (by decide)⟩

/-- The PUT calls recorded in a trace, in order. -/
def putEvents (t : List Ev) : List (GoStr × Bool) :=
  t.filterMap fun e =>
    match e with
    | .putCall ep ok => some (ep, ok)
    | _ => none

/-- Claim C5: the hypervisor configuration calls are issued strictly in the
order machine-config, boot-source, root drive, InstanceStart; no call is
issued before the control socket exists (every PUT is preceded by the
socket-ready event); and when a call fails (non-204 status or IO error), no
later call is issued, the handler returns HTTP 500, and the hypervisor child
is killed. -/
theorem configCalls_ordered (req : RunRequest) (env : EnvC1) :
    ((∃ k ≤ 4, putEvents (runHandler req env).2 =
        (fcEndpoints.take k).map (fun ep => (ep, true))) ∨
     (∃ k, ∃ hk : k < 4,
        putEvents (runHandler req env).2 =
          (fcEndpoints.take k).map (fun ep => (ep, true)) ++
            [(fcEndpoints.get ⟨k, hk⟩, false)] ∧
        (∃ m, (runHandler req env).1 = .httpErr 500 m) ∧
        Ev.killFC ∈ (runHandler req env).2 ∧ Ev.waitFC ∈ (runHandler req env).2)) ∧
    (putEvents (runHandler req env).2 ≠ [] →
      ∃ u v, (runHandler req env).2 = u ++ Ev.socketReady :: v ∧ putEvents u = []) := by
  cases hs : stagePhase req env with
  | some r =>
    have htr : (runHandler req env).2 = [] := by unfold runHandler; rw [hs]
    rw [htr]
    exact ⟨Or.inl ⟨0, by omega, rfl⟩, by simp [putEvents]⟩
  | none =>
    cases he : env.startErr with
    | some e =>
      have htr : (runHandler req env).2 = [] := by unfold runHandler; rw [hs, he]
      rw [htr]
      exact ⟨Or.inl ⟨0, by omega, rfl⟩, by simp [putEvents]⟩
    | none =>
      cases hc : configPhase env with
      | error a =>
        obtain ⟨r, t⟩ := a
        have htr : (runHandler req env).2 =
            Ev.startFC :: t ++ [Ev.killFC, Ev.waitFC] := by
          unfold runHandler; rw [hs, he, hc]
        have hr : (runHandler req env).1 = r := by
          unfold runHandler; rw [hs, he, hc]
        obtain ⟨⟨m, hm⟩, ht⟩ := configPhase_error_shape env r t hc
        rw [htr, hr]
        rcases ht with ht | ht | ht | ht | ht <;> subst ht
        · exact ⟨Or.inl ⟨0, by omega, rfl⟩, by simp [putEvents]⟩
        · refine ⟨Or.inr ⟨0, by omega, by decide,
            ⟨m, hm⟩, by simp, by simp⟩, ?_⟩
          intro _
          exact ⟨[Ev.startFC], [Ev.putCall (gs "/machine-config") false,
            Ev.killFC, Ev.waitFC], by simp, by simp [putEvents]⟩
        · refine ⟨Or.inr ⟨1, by omega, by decide,
            ⟨m, hm⟩, by simp, by simp⟩, ?_⟩
          intro _
          exact ⟨[Ev.startFC], [Ev.putCall (gs "/machine-config") true,
            Ev.putCall (gs "/boot-source") false, Ev.killFC, Ev.waitFC],
            by simp, by simp [putEvents]⟩
        · refine ⟨Or.inr ⟨2, by omega, by decide,
            ⟨m, hm⟩, by simp, by simp⟩, ?_⟩
          intro _
          exact ⟨[Ev.startFC], [Ev.putCall (gs "/machine-config") true,
            Ev.putCall (gs "/boot-source") true, Ev.putCall (gs "/drives/rootfs") false,
            Ev.killFC, Ev.waitFC], by simp, by simp [putEvents]⟩
        · refine ⟨Or.inr ⟨3, by omega, by decide,
            ⟨m, hm⟩, by simp, by simp⟩, ?_⟩
          intro _
          exact ⟨[Ev.startFC], [Ev.putCall (gs "/machine-config") true,
            Ev.putCall (gs "/boot-source") true, Ev.putCall (gs "/drives/rootfs") true,
            Ev.putCall (gs "/actions") false, Ev.killFC, Ev.waitFC],
            by simp, by simp [putEvents]⟩
      | ok t =>
        have htr : (runHandler req env).2 =
            Ev.startFC :: t ++ (execPhase req env).2 ++ [Ev.killFC, Ev.waitFC] := by
          unfold runHandler; rw [hs, he, hc]
        have ht := configPhase_ok_trace env t hc
        subst ht
        have hputsE : putEvents (execPhase req env).2 = [] := by
          rcases execPhase_trace req env with he2 | he2 <;> rw [he2] <;> rfl
        constructor
        · left
          refine ⟨4, by omega, ?_⟩
          rw [htr]
          simp only [putEvents, List.filterMap_cons, List.filterMap_append] at *
          simp [hputsE, fcEndpoints]
        · intro _
          refine ⟨[Ev.startFC], [Ev.putCall (gs "/machine-config") true,
            Ev.putCall (gs "/boot-source") true, Ev.putCall (gs "/drives/rootfs") true,
            Ev.putCall (gs "/actions") true] ++ (execPhase req env).2 ++
              [Ev.killFC, Ev.waitFC], ?_, by simp [putEvents]⟩
          rw [htr]
          simp

theorem configCalls_ordered_witness :
    ∃ u v, (runHandler echoReqW benignEnvW).2 = u ++ Ev.socketReady :: v ∧
      putEvents u = [] :=
  (configCalls_ordered echoReqW benignEnvW).2 (by decide)

/-- Claim C1 (amended): when the guest command has not finished within
`timeout_ms` (no completion snapshot fires, so the completion poller itself
runs into its deadline), the response is a 200 JSON body with exit code 124 in
both outcomes of the `select` race; the stderr is `"execution timed out"` with
empty stdout only when the deadline timer wins, while a win of the completion
goroutine (whose own deadline expired) yields stderr
`"timeout waiting for guest completion"` and the final console text as
stdout. -/
theorem timeoutResponse_select (req : RunRequest) (env : EnvC1)
    (h1 : stagePhase req env = none) (h2 : env.startErr = none)
    (h3 : ∃ t, configPhase env = .ok t)
    (h4 : ∃ u, waitForGuestInitStarted env.initSnapshots = .ok u)
    (h5 : (waitForGuestCompletion env.execSnapshots env.finalConsole).2.2 ≠ none) :
    (runHandler req env).1 =
      .ok (if env.doneFirst then
             ⟨normCRLF env.finalConsole, gs "timeout waiting for guest completion", 124⟩
           else ⟨[], gs "execution timed out", 124⟩) := by
  obtain ⟨t, h3⟩ := h3
  obtain ⟨u, h4⟩ := h4
  have hw := waitCompletion_timeout_shape env.finalConsole env.execSnapshots h5
  have hexec : (execPhase req env).1 =
      (if env.doneFirst then
        (⟨normCRLF env.finalConsole, gs "timeout waiting for guest completion", 124⟩ :
          RunResponse)
       else ⟨[], gs "execution timed out", 124⟩) := by
    unfold execPhase
    rw [h4, hw]
    cases env.doneFirst <;> simp
  have : (runHandler req env).1 = .ok (execPhase req env).1 := by
    unfold runHandler; rw [h1, h2, h3]
  rw [this, hexec]

def junkConsole : GoStr := gs "random hypervisor noise"

def doneWinsEnvW : EnvC1 :=
  { benignEnvW with execSnapshots := [], finalConsole := junkConsole, doneFirst := true }

/-- Claim C1 counterexample: a run in which the guest never finishes inside
`timeout_ms` (no completion snapshot) and the completion goroutine wins the
`select`: the handler answers 200/124, but the stderr is
`"timeout waiting for guest completion"` — it does not contain the literal
`"execution timed out"` — and the stdout is the non-empty console text, so
the claim as stated is false. -/
theorem timeoutResponse_counterexample :
    (waitForGuestCompletion ([] : List (Option GoStr)) junkConsole).2.2 ≠ none ∧
    (runHandler echoReqW doneWinsEnvW).1 =
      .ok ⟨gs "random hypervisor noise", gs "timeout waiting for guest completion", 124⟩ ∧
    strContains (gs "timeout waiting for guest completion") (gs "execution timed out")
      = false ∧
    gs "random hypervisor noise" ≠ ([] : GoStr) := by
  refine ⟨by decide, ?_, by decide, by decide⟩
  decide

def timerWinsEnvW : EnvC1 := { doneWinsEnvW with doneFirst := false }

theorem timeoutResponse_select_witness :
    (runHandler echoReqW doneWinsEnvW).1 =
      .ok (if doneWinsEnvW.doneFirst then
             ⟨normCRLF doneWinsEnvW.finalConsole,
              gs "timeout waiting for guest completion", 124⟩
           else ⟨[], gs "execution timed out", 124⟩) ∧
    (runHandler echoReqW timerWinsEnvW).1 =
      .ok (if timerWinsEnvW.doneFirst then
             ⟨normCRLF timerWinsEnvW.finalConsole,
              gs "timeout waiting for guest completion", 124⟩
           else ⟨[], gs "execution timed out", 124⟩) :=
  ⟨timeoutResponse_select echoReqW doneWinsEnvW (by decide) (by decide)
      ⟨[Ev.socketReady, .putCall (gs "/machine-config") true,
        .putCall (gs "/boot-source") true, .putCall (gs "/drives/rootfs") true,
        .putCall (gs "/actions") true], by decide⟩ ⟨(), by decide⟩ (by decide),
   timeoutResponse_select echoReqW timerWinsEnvW (by decide) (by decide)
      ⟨[Ev.socketReady, .putCall (gs "/machine-config") true,
        .putCall (gs "/boot-source") true, .putCall (gs "/drives/rootfs") true,
        .putCall (gs "/actions") true], by decide⟩ ⟨(), by decide⟩ (by decide)⟩

lemma stageLoop_ok_resolve (wd : GoStr) (env : EnvC1) :
    ∀ files, stageLoop wd env files = .ok () →
      ∀ p ∈ files, ∃ tp, resolveWorkPath wd p.1 = .ok tp := by
  intro files
  induction files with
  | nil => intro _ p hp; simp at hp
  | cons q rest ih =>
    obtain ⟨n, c⟩ := q
    intro h p hp
    cases hres : resolveWorkPath wd n with
    | error e => simp [stageLoop, hres] at h
    | ok tp =>
      cases hw : env.writeErr n with
      | some e => simp [stageLoop, hres, hw] at h
      | none =>
        rcases List.mem_cons.1 hp with hq | hq
        · subst hq; exact ⟨tp, hres⟩
        · by_cases hsb : (gs "#!").isPrefixOf c = true
          · cases hch : env.chmodErr n with
            | some e => simp [stageLoop, hres, hw, hsb, hch] at h
            | none =>
              simp only [stageLoop, hres, hw, hsb, hch, if_true] at h
              exact ih h p hq
          · simp only [stageLoop, hres, hw] at h
            rw [if_neg hsb] at h
            exact ih h p hq

lemma stagePhase_none_resolve (req : RunRequest) (env : EnvC1)
    (h : stagePhase req env = none) :
    ∀ p ∈ req.files, ∃ tp, resolveWorkPath (env.mountDir ++ gs "/work") p.1 = .ok tp := by
  unfold stagePhase at h
  split at h
  · simp at h
  · split at h
    · simp at h
    · split at h
      · simp at h
      · split at h
        · simp at h
        · split at h
          · simp at h
          · next hloop =>
            split at h
            · simp at h
            · exact stageLoop_ok_resolve _ env req.files hloop

lemma stageLoop_first_bad (wd : GoStr) (env : EnvC1)
    (name content : GoStr) (rest : List (GoStr × GoStr)) (e : GoStr)
    (hwr : ∀ n, env.writeErr n = none) (hch : ∀ n, env.chmodErr n = none)
    (he : resolveWorkPath wd name = .error e) :
    ∀ pre, (∀ p ∈ pre, ∃ tp, resolveWorkPath wd p.1 = .ok tp) →
      stageLoop wd env (pre ++ (name, content) :: rest) = .error (400, e) := by
  intro pre
  induction pre with
  | nil =>
    intro _
    simp [stageLoop, he]
  | cons q pre ih =>
    obtain ⟨n, c⟩ := q
    intro hpre
    obtain ⟨tp, htp⟩ := hpre (n, c) (by simp)
    have hrest := ih fun p hp => hpre p (List.mem_cons_of_mem _ hp)
    show stageLoop wd env ((n, c) :: (pre ++ (name, content) :: rest)) = .error (400, e)
    by_cases hsb : (gs "#!").isPrefixOf c = true
    · simp [stageLoop, htp, hwr n, hsb, hch n, hrest]
    · simp [stageLoop, htp, hwr n, hsb, hrest]

/-- Claim C3 (amended): a request with a file name the path validator rejects
(absolute, empty, cleaned form `.`/`..`/`../`-prefixed, or escaping `/work`)
never reaches `startFirecracker` and is answered with a plain-text HTTP error;
when the staging IO itself succeeds, the answer is exactly HTTP 400 with the
validator's message. A `..` that is cancelled by lexical cleaning (for example
`a/../b`) is, however, accepted, so "contains `..`" alone does not force a
rejection. -/
theorem pathReject_amended :
    (∀ (req : RunRequest) (env : EnvC1) (name content : GoStr),
      (name, content) ∈ req.files →
      (∃ e, resolveWorkPath (env.mountDir ++ gs "/work") name = .error e) →
      Ev.startFC ∉ (runHandler req env).2 ∧
      ∃ s m, (runHandler req env).1 = .httpErr s m) ∧
    (∀ (req : RunRequest) (env : EnvC1) (pre : List (GoStr × GoStr))
       (name content : GoStr) (rest : List (GoStr × GoStr)) (e : GoStr),
      req.cmd ≠ [] → env.mkdirTempErr = none → env.mountErr = none →
      env.mkdirWorkErr = none →
      (∀ n, env.writeErr n = none) → (∀ n, env.chmodErr n = none) →
      req.files = pre ++ (name, content) :: rest →
      (∀ p ∈ pre, ∃ tp, resolveWorkPath (env.mountDir ++ gs "/work") p.1 = .ok tp) →
      resolveWorkPath (env.mountDir ++ gs "/work") name = .error e →
      runHandler req env = (.httpErr 400 e, [])) := by
  constructor
  · intro req env name content hmem ⟨e, he⟩
    cases hs : stagePhase req env with
    | none =>
      obtain ⟨tp, htp⟩ := stagePhase_none_resolve req env hs (name, content) hmem
      rw [he] at htp
      simp at htp
    | some r =>
      have htr : (runHandler req env).2 = [] := by unfold runHandler; rw [hs]
      have hr : (runHandler req env).1 = r := by unfold runHandler; rw [hs]
      rw [htr, hr]
      exact ⟨by simp, stagePhase_some_shape req env r hs⟩
  · intro req env pre name content rest e hcmd h1 h2 h3 hwr hch hfiles hpre he
    have hloop := stageLoop_first_bad (env.mountDir ++ gs "/work") env
      name content rest e hwr hch he pre hpre
    have hstage : stagePhase req env = some (.httpErr 400 e) := by
      unfold stagePhase
      rw [if_neg hcmd, h1, h2, h3, hfiles, hloop]
    unfold runHandler
    rw [hstage]

def dotdotReq : RunRequest := ⟨gs "sh main.sh", [(gs "a/../b", gs "x")], 2000⟩

/-- Claim C3 counterexample: the file name `a/../b` contains `..` as a path
component, yet the request is not rejected — the handler answers HTTP 200 and
`startFirecracker` is reached — because lexical cleaning cancels the `..`
before the validator's checks. -/
theorem pathReject_counterexample :
    (gs "..") ∈ splitc (gs "a/../b") ∧
    (runHandler dotdotReq benignEnvW).1 =
      .ok ⟨gs "[guest] exit code: 0", gs "", 0⟩ ∧
    (∀ s m, (runHandler dotdotReq benignEnvW).1 ≠ .httpErr s m) ∧
    Ev.startFC ∈ (runHandler dotdotReq benignEnvW).2 := by
  refine ⟨by decide, by decide, ?_, by decide⟩
  have h0 : (runHandler dotdotReq benignEnvW).1 =
      .ok ⟨gs "[guest] exit code: 0", gs "", 0⟩ := by decide
  intro s m
  rw [h0]
  simp

def escapeReq : RunRequest := ⟨gs "run", [(gs "../evil", gs "x")], 1000⟩

theorem pathReject_amended_witness :
    (Ev.startFC ∉ (runHandler escapeReq benignEnvW).2 ∧
      ∃ s m, (runHandler escapeReq benignEnvW).1 = .httpErr s m) ∧
    runHandler escapeReq benignEnvW =
      (.httpErr 400 (gs "path traversal is not allowed"), []) :=
  ⟨pathReject_amended.1 escapeReq benignEnvW (gs "../evil") (gs "x") (by decide)
      ⟨gs "path traversal is not allowed", by decide⟩,
   pathReject_amended.2 escapeReq benignEnvW [] (gs "../evil") (gs "x") []
      (gs "path traversal is not allowed") (by decide) rfl rfl rfl
      (fun _ => rfl) (fun _ => rfl) rfl (by simp) (by decide)⟩

/-! ## Lemmas about line splitting and joining -/

lemma splitOnChar_ne_nil (sep : Char) : ∀ s : GoStr, splitOnChar sep s ≠ [] := by
  intro s
  cases s with
  | nil => simp [splitOnChar]
  | cons c rest =>
    unfold splitOnChar
    split
    · simp
    · split <;> simp

lemma splitOnChar_no_sep (sep : Char) :
    ∀ s : GoStr, ∀ l ∈ splitOnChar sep s, sep ∉ l := by
  intro s
  induction s with
  | nil => intro l hl; simp [splitOnChar] at hl; simp [hl]
  | cons c rest ih =>
    intro l hl
    unfold splitOnChar at hl
    by_cases hc : c = sep
    · rw [if_pos hc] at hl
      rcases List.mem_cons.1 hl with h | h
      · simp [h]
      · exact ih l h
    · rw [if_neg hc] at hl
      cases hsp : splitOnChar sep rest with
      | nil => exact absurd hsp (splitOnChar_ne_nil sep rest)
      | cons m ms =>
        rw [hsp] at hl
        rcases List.mem_cons.1 hl with h | h
        · subst h
          intro hmem
          rcases List.mem_cons.1 hmem with h | h
          · exact hc h.symm
          · exact ih m (by rw [hsp]; exact List.mem_cons_self m ms) h
        · exact ih l (by rw [hsp]; exact List.mem_cons_of_mem m h)

lemma splitOnChar_sepfree (sep : Char) :
    ∀ s : GoStr, sep ∉ s → splitOnChar sep s = [s] := by
  intro s
  induction s with
  | nil => intro _; rfl
  | cons c rest ih =>
    intro h
    have hc : c ≠ sep := fun hh => h (by simp [hh])
    have hr : sep ∉ rest := fun hh => h (List.mem_cons_of_mem c hh)
    unfold splitOnChar
    rw [if_neg hc, ih hr]

lemma splitOnChar_append_sep (sep : Char) (a : GoStr) :
    ∀ b : GoStr, sep ∉ a →
      splitOnChar sep (a ++ sep :: b) = a :: splitOnChar sep b := by
  induction a with
  | nil => intro b _; simp [splitOnChar]
  | cons c a ih =>
    intro b h
    have hc : c ≠ sep := fun hh => h (by simp [hh])
    have ha : sep ∉ a := fun hh => h (List.mem_cons_of_mem c hh)
    show splitOnChar sep (c :: (a ++ sep :: b)) = (c :: a) :: splitOnChar sep b
    conv_lhs => unfold splitOnChar
    rw [if_neg hc, ih b ha]

lemma joinWith_append (sep : Char) :
    ∀ xs ys : List GoStr, xs ≠ [] → ys ≠ [] →
      joinWith sep (xs ++ ys) = joinWith sep xs ++ sep :: joinWith sep ys := by
  intro xs
  induction xs with
  | nil => intro ys h _; exact absurd rfl h
  | cons x xs ih =>
    intro ys _ hys
    cases xs with
    | nil =>
      cases ys with
      | nil => exact absurd rfl hys
      | cons y ys => simp [joinWith]
    | cons x2 xs2 =>
      have := ih ys (by simp) hys
      show joinWith sep (x :: ((x2 :: xs2) ++ ys)) = _
      have harm : joinWith sep (x :: ((x2 :: xs2) ++ ys)) =
          x ++ sep :: joinWith sep ((x2 :: xs2) ++ ys) := rfl
      rw [harm, this]
      simp [joinWith]

lemma splitOnChar_joinWith (sep : Char) :
    ∀ xs : List GoStr, (∀ x ∈ xs, sep ∉ x) → xs ≠ [] →
      splitOnChar sep (joinWith sep xs) = xs := by
  intro xs
  induction xs with
  | nil => intro _ h; exact absurd rfl h
  | cons x xs ih =>
    intro hall _
    cases xs with
    | nil => exact splitOnChar_sepfree sep x (hall x (by simp))
    | cons x2 xs2 =>
      have hx : sep ∉ x := hall x (by simp)
      have hrest : ∀ y ∈ x2 :: xs2, sep ∉ y := fun y hy =>
        hall y (List.mem_cons_of_mem x hy)
      have hj : joinWith sep (x :: x2 :: xs2) =
          x ++ sep :: joinWith sep (x2 :: xs2) := rfl
      rw [hj, splitOnChar_append_sep sep x _ hx, ih hrest (by simp)]

/-! ## Lemmas about the exit-marker scan -/

lemma findExitLine_cons_skip (l : GoStr) (ls : List GoStr)
    (h : ¬(exitMarker.isPrefixOf l = true ∧ (splitOnChar ':' l).length = 2)) :
    findExitLine (l :: ls) = findExitLine ls := by
  by_cases hp : exitMarker.isPrefixOf l = true
  · conv_lhs => unfold findExitLine
    rw [if_pos hp]
    cases hsp : splitOnChar ':' l with
    | nil => rfl
    | cons a tl =>
      cases tl with
      | nil => rfl
      | cons b tl2 =>
        cases tl2 with
        | nil => exact absurd ⟨hp, by rw [hsp]; rfl⟩ h
        | cons d tl3 => rfl
  · conv_lhs => unfold findExitLine
    rw [if_neg hp]

lemma findExitLine_skip_append (ls : List GoStr) :
    ∀ pre : List GoStr,
      (∀ l ∈ pre, ¬(exitMarker.isPrefixOf l = true ∧ (splitOnChar ':' l).length = 2)) →
      findExitLine (pre ++ ls) = findExitLine ls := by
  intro pre
  induction pre with
  | nil => intro _; rfl
  | cons l pre ih =>
    intro h
    rw [List.cons_append,
      findExitLine_cons_skip l (pre ++ ls) (h l (List.mem_cons_self l pre)),
      ih fun m hm => h m (List.mem_cons_of_mem l hm)]

lemma findExitLine_found (s : GoStr) (ls : List GoStr) (hcol : ':' ∉ s) :
    findExitLine ((exitMarker ++ s) :: ls) = some (goAtoi (trimSpace s)).1 := by
  have hpre : exitMarker.isPrefixOf (exitMarker ++ s) = true :=
    isPrefixOf_append_ext _ _ _ (isPrefixOf_self _)
  have hsp : splitOnChar ':' (exitMarker ++ s) = [gs "[guest] exit code", s] := by
    have h1 : exitMarker ++ s = gs "[guest] exit code" ++ ':' :: s := by
      have : exitMarker = gs "[guest] exit code" ++ [':'] := by decide
      rw [this, List.append_assoc]
      rfl
    rw [h1, splitOnChar_append_sep ':' _ s (by decide),
      splitOnChar_sepfree ':' s hcol]
  conv_lhs => unfold findExitLine
  rw [if_pos hpre, hsp]

/-- Claim C9 (under the reading on which its two halves are consistent):
in the completion waiter, a console containing `reboot: System halted` with no
parseable `[guest] exit code:` line yields exit code 0 with no error; a
console that reaches neither an exit-code line nor the halted message — for
instance one only showing `Kernel panic` — produces exit code 124 via the
deadline; and during boot, a halt or panic before the `[guest] init started`
marker makes the init wait fail, which the handler reports as exit 124. -/
theorem completionSignals :
    (∀ (b final : GoStr) (rest : List (Option GoStr)),
      findExitLine (splitOnChar '\n' (normCRLF b)) = none →
      strContains (normCRLF b) haltedMarker = true →
      waitForGuestCompletion (some b :: rest) final = (normCRLF b, 0, none)) ∧
    (∀ (snapshots : List (Option GoStr)) (final : GoStr),
      (∀ b : GoStr, some b ∈ snapshots →
        findExitLine (splitOnChar '\n' (normCRLF b)) = none ∧
        strContains (normCRLF b) haltedMarker = false) →
      waitForGuestCompletion snapshots final =
        (normCRLF final, 124, some (gs "timeout waiting for guest completion"))) ∧
    (∀ (b : GoStr) (rest : List (Option GoStr)),
      strContains (normCRLF b) initMarker = false →
      (strContains (normCRLF b) panicMarker = true ∨
       strContains (normCRLF b) haltedMarker = true) →
      waitForGuestInitStarted (some b :: rest) =
        .error (gs "guest did not reach init started (halt/panic)")) ∧
    (∀ (req : RunRequest) (env : EnvC1) (e : GoStr),
      waitForGuestInitStarted env.initSnapshots = .error e →
      (execPhase req env).1.exitCode = 124) := by
  refine ⟨?_, ?_, ?_, ?_⟩
  · intro b final rest h1 h2
    unfold waitForGuestCompletion
    have hscan : scanConsole (normCRLF b) = some (normCRLF b, 0) := by
      unfold scanConsole
      rw [h1, if_pos h2]
    rw [hscan]
  · intro snapshots final h
    induction snapshots with
    | nil => rfl
    | cons o rest ih =>
      cases o with
      | none =>
        show waitForGuestCompletion rest final = _
        exact ih fun b hb => h b (List.mem_cons_of_mem _ hb)
      | some b =>
        obtain ⟨h1, h2⟩ := h b (List.mem_cons_self _ _)
        have hscan : scanConsole (normCRLF b) = none := by
          unfold scanConsole
          rw [h1, if_neg (by simp [h2])]
        unfold waitForGuestCompletion
        rw [hscan]
        exact ih fun b hb => h b (List.mem_cons_of_mem _ hb)
  · intro b rest h1 h2
    have hscan : scanInit (normCRLF b) =
        some (.error (gs "guest did not reach init started (halt/panic)")) := by
      unfold scanInit
      rw [if_neg (by simp [h1]), if_pos (by rcases h2 with h | h <;> simp [h])]
    unfold waitForGuestInitStarted
    rw [hscan]
  · intro req env e h
    unfold execPhase
    rw [h]

theorem completionSignals_witness :
    (waitForGuestCompletion [some (gs "reboot: System halted")] [] =
      (gs "reboot: System halted", 0, none)) ∧
    (waitForGuestCompletion [some (gs "Kernel panic - not syncing")] (gs "Kernel panic - not syncing") =
      (gs "Kernel panic - not syncing", 124,
        some (gs "timeout waiting for guest completion"))) ∧
    (waitForGuestInitStarted [some (gs "Kernel panic - not syncing")] =
      .error (gs "guest did not reach init started (halt/panic)")) ∧
    (execPhase echoReqW { benignEnvW with initSnapshots := [] }).1.exitCode = 124 :=
  ⟨completionSignals.1 (gs "reboot: System halted") [] [] (by decide) (by decide),
   completionSignals.2.1 [some (gs "Kernel panic - not syncing")]
     (gs "Kernel panic - not syncing")
     (by intro b hb; simp at hb; subst hb; exact ⟨by decide, by decide⟩),
   completionSignals.2.2.1 (gs "Kernel panic - not syncing") [] (by decide)
     (Or.inl (by decide)),
   completionSignals.2.2.2 echoReqW { benignEnvW with initSnapshots := [] }
     (gs "timeout waiting for guest init started") (by decide)⟩

/-- Claim C10 (amended): a console line of the form `"[guest] exit code:" ++ s`
completes the wait with the discarded-`Atoi` behaviour only when `s` holds no
further colon: if additionally `s` fails to parse as a decimal integer
(`goAtoi` returns `(0, false)`), the waiter reports a normal completion with
exit code 0 and no error. When the text after the marker contains another
colon, the line splits into more than two parts and is skipped instead, so it
does not complete the wait at all. -/
theorem atoiDiscard (b final s : GoStr) (pre post : List GoStr)
    (hsplit : splitOnChar '\n' (normCRLF b) = pre ++ (exitMarker ++ s) :: post)
    (hpre : ∀ l ∈ pre,
      ¬(exitMarker.isPrefixOf l = true ∧ (splitOnChar ':' l).length = 2))
    (hcol : ':' ∉ s)
    (hbad : goAtoi (trimSpace s) = (0, false)) :
    ∀ rest : List (Option GoStr),
      waitForGuestCompletion (some b :: rest) final = (normCRLF b, 0, none) := by
  intro rest
  have hfind : findExitLine (splitOnChar '\n' (normCRLF b)) = some 0 := by
    rw [hsplit, findExitLine_skip_append _ pre hpre, findExitLine_found s post hcol,
      hbad]
  have hscan : scanConsole (normCRLF b) = some (normCRLF b, 0) := by
    unfold scanConsole
    rw [hfind]
  unfold waitForGuestCompletion
  rw [hscan]

def badAtoiConsole : GoStr := gs "[guest] exit code: abc"

theorem atoiDiscard_witness :
    waitForGuestCompletion [some badAtoiConsole] [] =
      (normCRLF badAtoiConsole, 0, none) :=
  atoiDiscard badAtoiConsole [] (gs " abc") [] [] (by decide) (by simp)
    (by decide) (by decide) []

def colonConsole : GoStr := gs "[guest] exit code: 1:2"

/-- Claim C10 counterexample: the console line `"[guest] exit code: 1:2"`
begins with the marker and its text after the colon (`" 1:2"`) is not a
decimal integer, yet the waiter does not report exit code 0 with no error: the
extra colon makes the split yield three parts, the line is skipped, and the
wait times out with exit code 124 and the timeout error, refuting the claim as
stated. -/
theorem atoiDiscard_counterexample :
    exitMarker.isPrefixOf colonConsole = true ∧
    (goAtoi (trimSpace (gs " 1:2"))).2 = false ∧
    waitForGuestCompletion [some colonConsole] colonConsole =
      (colonConsole, 124, some (gs "timeout waiting for guest completion")) := by
  refine ⟨by decide, by decide, ?_⟩
  decide

lemma scanConsole_some_marker (t : GoStr) (code : Int)
    (hf : findExitLine (splitOnChar '\n' t) = some code) :
    scanConsole t = some (t, code) := by
  unfold scanConsole
  rw [hf]

lemma scanConsole_none_marker (t : GoStr)
    (hf : findExitLine (splitOnChar '\n' t) = none) :
    scanConsole t = if strContains t haltedMarker = true then some (t, 0) else none := by
  unfold scanConsole
  rw [hf]

lemma scanConsole_fst (t s : GoStr) (c : Int)
    (h : scanConsole t = some (s, c)) : s = t := by
  cases hf : findExitLine (splitOnChar '\n' t) with
  | some code =>
    rw [scanConsole_some_marker t code hf] at h
    simp at h
    exact h.1.symm
  | none =>
    rw [scanConsole_none_marker t hf] at h
    by_cases hh : strContains t haltedMarker = true
    · rw [if_pos hh] at h
      simp at h
      exact h.1.symm
    · rw [if_neg hh] at h
      simp at h

lemma scanConsoleV0_some_marker (t : GoStr) (code : Int)
    (hf : findExitLine ((splitOnChar '\n' t).filter guestLineFilter) = some code) :
    scanConsoleV0 t =
      some (joinWith '\n' ((splitOnChar '\n' t).filter guestLineFilter) ++ ['\n'],
        code) := by
  unfold scanConsoleV0
  rw [hf]

lemma scanConsoleV0_none_marker (t : GoStr)
    (hf : findExitLine ((splitOnChar '\n' t).filter guestLineFilter) = none) :
    scanConsoleV0 t =
      if strContains t haltedMarker = true then
        some (joinWith '\n' ((splitOnChar '\n' t).filter guestLineFilter) ++ ['\n'], 0)
      else none := by
  unfold scanConsoleV0
  rw [hf]

lemma scanConsoleV0_shape (t s : GoStr) (c : Int)
    (h : scanConsoleV0 t = some (s, c)) :
    ∃ lines : List GoStr, s = joinWith '\n' lines ++ ['\n'] ∧
      ∀ l ∈ lines, guestLineFilter l = true ∧ '\n' ∉ l := by
  refine ⟨(splitOnChar '\n' t).filter guestLineFilter, ?_, ?_⟩
  · cases hf : findExitLine ((splitOnChar '\n' t).filter guestLineFilter) with
    | some code =>
      rw [scanConsoleV0_some_marker t code hf] at h
      simp at h
      exact h.1.symm
    | none =>
      rw [scanConsoleV0_none_marker t hf] at h
      by_cases hh : strContains t haltedMarker = true
      · rw [if_pos hh] at h
        simp at h
        exact h.1.symm
      · rw [if_neg hh] at h
        simp at h
  · intro l hl
    have hmem := List.mem_filter.1 hl
    exact ⟨hmem.2, splitOnChar_no_sep '\n' t l hmem.1⟩

lemma linesOf_filtered (lines : List GoStr) (hnl : ∀ l ∈ lines, '\n' ∉ l) :
    ∀ l ∈ splitOnChar '\n' (joinWith '\n' lines ++ ['\n']), l ∈ lines ∨ l = [] := by
  cases lines with
  | nil =>
    intro l hl
    right
    have he : joinWith '\n' ([] : List GoStr) ++ ['\n'] = ['\n'] := rfl
    rw [he] at hl
    have h2 : splitOnChar '\n' ['\n'] = [[], []] := by decide
    rw [h2] at hl
    rcases List.mem_cons.1 hl with h | h
    · exact h
    · simpa using h
  | cons x xs =>
    have hjoin : joinWith '\n' (x :: xs) ++ ['\n'] =
        joinWith '\n' ((x :: xs) ++ [[]]) := by
      rw [joinWith_append '\n' (x :: xs) [[]] (by simp) (by simp)]
      rfl
    intro l hl
    rw [hjoin, splitOnChar_joinWith '\n' _ ?_ (by simp)] at hl
    · rcases List.mem_append.1 hl with h | h
      · left; exact h
      · right; simpa using h
    · intro y hy
      rcases List.mem_append.1 hy with h | h
      · exact hnl y h
      · simp at h
        subst h
        simp

lemma waitCompletion_skip_none (rest : List (Option GoStr)) (final : GoStr) :
    waitForGuestCompletion (none :: rest) final =
      waitForGuestCompletion rest final := by
  conv_lhs => unfold waitForGuestCompletion

lemma waitCompletion_skip_scan (b : GoStr) (rest : List (Option GoStr)) (final : GoStr)
    (hs : scanConsole (normCRLF b) = none) :
    waitForGuestCompletion (some b :: rest) final =
      waitForGuestCompletion rest final := by
  conv_lhs => unfold waitForGuestCompletion
  rw [hs]

lemma waitCompletionV0_skip_none (rest : List (Option GoStr)) (final : GoStr) :
    waitForGuestCompletionV0 (none :: rest) final =
      waitForGuestCompletionV0 rest final := by
  conv_lhs => unfold waitForGuestCompletionV0

lemma waitCompletionV0_skip_scan (b : GoStr) (rest : List (Option GoStr)) (final : GoStr)
    (hs : scanConsoleV0 (normCRLF b) = none) :
    waitForGuestCompletionV0 (some b :: rest) final =
      waitForGuestCompletionV0 rest final := by
  conv_lhs => unfold waitForGuestCompletionV0
  rw [hs]

/-- Claim C4 (amended): in the console variant of src/main.go the stdout field
is always a whole normalized console snapshot — the full text, not a filtered
concatenation of `[guest]` lines — while in the filtering v0 variant
(part_003) every line of the returned stdout on completion passes the filter
(begins with `[guest]` or contains `hello from microvm`), the marker lines
included; a hypervisor log line matching neither shape can appear in the
former but never in the latter. -/
theorem consoleStdout (snapshots : List (Option GoStr)) (final : GoStr) :
    ((waitForGuestCompletion snapshots final).1 ∈
      (snapshots.filterMap id).map normCRLF ++ [normCRLF final]) ∧
    (∀ s c, waitForGuestCompletionV0 snapshots final = (s, c, none) →
      ∀ l ∈ splitOnChar '\n' s, l = [] ∨ guestLineFilter l = true) := by
  constructor
  · induction snapshots with
    | nil => simp [waitForGuestCompletion]
    | cons o rest ih =>
      cases o with
      | none =>
        rw [waitCompletion_skip_none]
        simpa using ih
      | some b =>
        cases hs : scanConsole (normCRLF b) with
        | some sc =>
          obtain ⟨s0, c0⟩ := sc
          have h1 : waitForGuestCompletion (some b :: rest) final = (s0, c0, none) := by
            conv_lhs => unfold waitForGuestCompletion
            rw [hs]
          rw [h1]
          have h2 := scanConsole_fst (normCRLF b) s0 c0 hs
          simp [h2]
        | none =>
          rw [waitCompletion_skip_scan b rest final hs]
          simp only [List.filterMap_cons, id, List.map_cons, List.cons_append]
          exact List.mem_cons_of_mem _ ih
  · induction snapshots with
    | nil =>
      intro s c h
      unfold waitForGuestCompletionV0 at h
      simp at h
    | cons o rest ih =>
      cases o with
      | none =>
        intro s c h
        rw [waitCompletionV0_skip_none] at h
        exact ih s c h
      | some b =>
        intro s c h
        cases hs : scanConsoleV0 (normCRLF b) with
        | none =>
          rw [waitCompletionV0_skip_scan b rest final hs] at h
          exact ih s c h
        | some sc =>
          obtain ⟨s0, c0⟩ := sc
          have h1 : waitForGuestCompletionV0 (some b :: rest) final = (s0, c0, none) := by
            conv_lhs => unfold waitForGuestCompletionV0
            rw [hs]
          rw [h1] at h
          have hs0 : s = s0 := (congrArg Prod.fst h).symm
          rw [hs0]
          obtain ⟨lines, hsE, hprop⟩ := scanConsoleV0_shape (normCRLF b) s0 c0 hs
          rw [hsE]
          intro l hl
          rcases linesOf_filtered lines (fun m hm => (hprop m hm).2) l hl with hm | hm
          · right; exact (hprop l hm).1
          · left; exact hm

def mixedConsole : GoStr :=
  gs "noise line\n[guest] init started\n[guest] hi\n[guest] exit code: 0"

/-- Claim C4 counterexample: a completed run whose console holds a non-guest
line (`"noise line"`) outside the markers returns the entire console text as
stdout — including that line — so stdout is not the concatenation of the
`[guest]`-prefixed lines between the markers. -/
theorem consoleStdout_counterexample :
    (waitForGuestCompletion [some mixedConsole] []).1 = mixedConsole ∧
    (waitForGuestCompletion [some mixedConsole] []).2.1 = 0 ∧
    (waitForGuestCompletion [some mixedConsole] []).2.2 = none ∧
    strContains mixedConsole (gs "noise line") = true ∧
    (gs "[guest]").isPrefixOf (gs "noise line") = false := by
  refine ⟨?_, ?_, ?_, by decide, by decide⟩ <;> decide

theorem consoleStdout_witness :
    ((waitForGuestCompletion [some mixedConsole] ([] : GoStr)).1 ∈
      ([some mixedConsole].filterMap id).map normCRLF ++ [normCRLF []]) ∧
    (∀ l ∈ splitOnChar '\n'
        (gs "[guest] init started\n[guest] hi\n[guest] exit code: 0\n"),
      l = [] ∨ guestLineFilter l = true) :=
  ⟨(consoleStdout [some mixedConsole] []).1,
   fun l hl => (consoleStdout [some mixedConsole] []).2
     (gs "[guest] init started\n[guest] hi\n[guest] exit code: 0\n") 0
     (by decide) l hl⟩

/-! ## Structural lemmas about the path element scanner -/

lemma splitcAux_elems :
    ∀ p cur : GoStr, '/' ∉ cur →
      ∀ l ∈ splitcAux cur p, l ≠ [] ∧ '/' ∉ l := by
  intro p
  induction p with
  | nil =>
    intro cur hcur l hl
    unfold splitcAux at hl
    split at hl
    · simp at hl
    · next hcc =>
      simp only [List.mem_singleton] at hl
      subst hl
      refine ⟨by simpa using hcc, fun hm => hcur (by simpa using hm)⟩
  | cons c rest ih =>
    intro cur hcur l hl
    by_cases hc : c = '/'
    · subst hc
      have he : splitcAux cur ('/' :: rest) =
          (if cur = [] then splitcAux [] rest
           else cur.reverse :: splitcAux [] rest) := by
        conv_lhs => unfold splitcAux
        rw [if_pos rfl]
      rw [he] at hl
      by_cases hcc : cur = []
      · rw [if_pos hcc] at hl
        exact ih [] (by simp) l hl
      · rw [if_neg hcc] at hl
        rcases List.mem_cons.1 hl with h | h
        · subst h
          exact ⟨by simpa using hcc, fun hm => hcur (by simpa using hm)⟩
        · exact ih [] (by simp) l h
    · have he : splitcAux cur (c :: rest) = splitcAux (c :: cur) rest := by
        conv_lhs => unfold splitcAux
        rw [if_neg hc]
      rw [he] at hl
      refine ih (c :: cur) ?_ l hl
      intro hm
      rcases List.mem_cons.1 hm with h | h
      · exact hc h.symm
      · exact hcur h

lemma splitcAux_append_sep :
    ∀ a cur b : GoStr,
      splitcAux cur (a ++ '/' :: b) = splitcAux cur a ++ splitcAux [] b := by
  intro a
  induction a with
  | nil =>
    intro cur b
    show splitcAux cur ('/' :: b) = splitcAux cur [] ++ splitcAux [] b
    have he : splitcAux cur ('/' :: b) =
        (if cur = [] then splitcAux [] b else cur.reverse :: splitcAux [] b) := by
      conv_lhs => unfold splitcAux
      rw [if_pos rfl]
    rw [he]
    by_cases hcc : cur = []
    · rw [if_pos hcc]
      have h0 : splitcAux cur [] = [] := by simp [splitcAux, hcc]
      rw [h0, List.nil_append]
    · rw [if_neg hcc]
      have h0 : splitcAux cur [] = [cur.reverse] := by simp [splitcAux, hcc]
      rw [h0, List.singleton_append]
  | cons c a ih =>
    intro cur b
    by_cases hc : c = '/'
    · subst hc
      show splitcAux cur ('/' :: (a ++ '/' :: b)) = splitcAux cur ('/' :: a) ++ _
      have h1 : splitcAux cur ('/' :: (a ++ '/' :: b)) =
          (if cur = [] then splitcAux [] (a ++ '/' :: b)
           else cur.reverse :: splitcAux [] (a ++ '/' :: b)) := by
        conv_lhs => unfold splitcAux
        rw [if_pos rfl]
      have h2 : splitcAux cur ('/' :: a) =
          (if cur = [] then splitcAux [] a else cur.reverse :: splitcAux [] a) := by
        conv_lhs => unfold splitcAux
        rw [if_pos rfl]
      rw [h1, h2, ih]
      by_cases hcc : cur = [] <;> simp [hcc]
    · show splitcAux cur (c :: (a ++ '/' :: b)) = splitcAux cur (c :: a) ++ _
      have h1 : splitcAux cur (c :: (a ++ '/' :: b)) =
          splitcAux (c :: cur) (a ++ '/' :: b) := by
        conv_lhs => unfold splitcAux
        rw [if_neg hc]
      have h2 : splitcAux cur (c :: a) = splitcAux (c :: cur) a := by
        conv_lhs => unfold splitcAux
        rw [if_neg hc]
      rw [h1, h2, ih]

lemma splitcAux_no_sep :
    ∀ s cur : GoStr, '/' ∉ s →
      splitcAux cur s =
        if cur.reverse ++ s = [] then [] else [cur.reverse ++ s] := by
  intro s
  induction s with
  | nil =>
    intro cur _
    by_cases hcc : cur = []
    · simp [splitcAux, hcc]
    · simp [splitcAux, hcc]
  | cons c rest ih =>
    intro cur h
    have hc : c ≠ '/' := fun hh => h (by simp [hh])
    have hr : '/' ∉ rest := fun hh => h (List.mem_cons_of_mem _ hh)
    have he : splitcAux cur (c :: rest) = splitcAux (c :: cur) rest := by
      conv_lhs => unfold splitcAux
      rw [if_neg hc]
    rw [he, ih (c :: cur) hr]
    simp

lemma splitc_single (c : GoStr) (h1 : '/' ∉ c) (h2 : c ≠ []) : splitc c = [c] := by
  unfold splitc
  rw [splitcAux_no_sep c [] h1]
  simp [h2]

lemma splitc_joinWith :
    ∀ cs : List GoStr, (∀ c ∈ cs, c ≠ [] ∧ '/' ∉ c) →
      splitc (joinWith '/' cs) = cs := by
  intro cs
  induction cs with
  | nil => intro _; rfl
  | cons x xs ih =>
    intro h
    cases xs with
    | nil =>
      exact splitc_single x (h x (by simp)).2 (h x (by simp)).1
    | cons y ys =>
      have hj : joinWith '/' (x :: y :: ys) = x ++ '/' :: joinWith '/' (y :: ys) := rfl
      unfold splitc
      rw [hj, splitcAux_append_sep]
      have h1 : splitcAux [] x = [x] :=
        splitc_single x (h x (by simp)).2 (h x (by simp)).1
      rw [h1]
      have h2 := ih fun c hc => h c (List.mem_cons_of_mem _ hc)
      unfold splitc at h2
      rw [h2]
      rfl

/-! ## Structural lemmas about path cleaning -/

lemma cleanComps_all_good :
    ∀ cs : List GoStr, (∀ c ∈ cs, c ≠ gs "." ∧ c ≠ gs "..") →
      ∀ (r : Bool) (acc : List GoStr), cleanComps r acc cs = acc.reverse ++ cs := by
  intro cs
  induction cs with
  | nil => intro _ r acc; simp [cleanComps]
  | cons c rest ih =>
    intro h r acc
    have hc1 : c ≠ gs "." := (h c (by simp)).1
    have hc2 : c ≠ gs ".." := (h c (by simp)).2
    have he : cleanComps r acc (c :: rest) = cleanComps r (c :: acc) rest := by
      conv_lhs => unfold cleanComps
      rw [if_neg hc1, if_neg hc2]
    rw [he, ih (fun x hx => h x (List.mem_cons_of_mem _ hx)) r (c :: acc)]
    simp

lemma cleanComps_rooted_ok :
    ∀ cs acc : List GoStr, (∀ c ∈ cs, c ≠ [] ∧ '/' ∉ c) →
      (∀ x ∈ acc, x ≠ [] ∧ x ≠ gs "." ∧ x ≠ gs ".." ∧ '/' ∉ x) →
      ∀ x ∈ cleanComps true acc cs, x ≠ [] ∧ x ≠ gs "." ∧ x ≠ gs ".." ∧ '/' ∉ x := by
  intro cs
  induction cs with
  | nil =>
    intro acc _ hacc x hx
    have he : cleanComps true acc [] = acc.reverse := rfl
    rw [he] at hx
    exact hacc x (by simpa using hx)
  | cons c rest ih =>
    intro acc hcs hacc x hx
    have hcs2 := fun y hy => hcs y (List.mem_cons_of_mem c hy)
    by_cases h1 : c = gs "."
    · have he : cleanComps true acc (c :: rest) = cleanComps true acc rest := by
        conv_lhs => unfold cleanComps
        rw [if_pos h1]
      rw [he] at hx
      exact ih acc hcs2 hacc x hx
    · by_cases h2 : c = gs ".."
      · cases acc with
        | nil =>
          have he : cleanComps true [] (c :: rest) = cleanComps true [] rest := by
            conv_lhs => unfold cleanComps
            rw [if_neg h1, if_pos h2]
            rfl
          rw [he] at hx
          exact ih [] hcs2 (by simp) x hx
        | cons a tl =>
          have he : cleanComps true (a :: tl) (c :: rest) = cleanComps true tl rest := by
            conv_lhs => unfold cleanComps
            rw [if_neg h1, if_pos h2]
            simp
          rw [he] at hx
          exact ih tl hcs2 (fun y hy => hacc y (List.mem_cons_of_mem _ hy)) x hx
      · have he : cleanComps true acc (c :: rest) = cleanComps true (c :: acc) rest := by
          conv_lhs => unfold cleanComps
          rw [if_neg h1, if_neg h2]
        rw [he] at hx
        refine ih (c :: acc) hcs2 ?_ x hx
        intro y hy
        rcases List.mem_cons.1 hy with h | h
        · rw [h]
          exact ⟨(hcs c (by simp)).1, h1, h2, (hcs c (by simp)).2⟩
        · exact hacc y h

lemma cleanComps_unrooted_shape :
    ∀ cs acc g : List GoStr, ∀ d : Nat,
      (∀ c ∈ cs, c ≠ [] ∧ '/' ∉ c) →
      acc = g ++ List.replicate d (gs "..") →
      (∀ x ∈ g, x ≠ gs ".." ∧ x ≠ gs "." ∧ x ≠ [] ∧ '/' ∉ x) →
      ∃ g2 d2, cleanComps false acc cs = List.replicate d2 (gs "..") ++ g2 ∧
        ∀ x ∈ g2, x ≠ gs ".." ∧ x ≠ gs "." ∧ x ≠ [] ∧ '/' ∉ x := by
  intro cs
  induction cs with
  | nil =>
    intro acc g d _ hacc hg
    refine ⟨g.reverse, d, ?_, fun x hx => hg x (by simpa using hx)⟩
    have he : cleanComps false acc [] = acc.reverse := rfl
    rw [he, hacc]
    simp
  | cons c rest ih =>
    intro acc g d hcs hacc hg
    have hcs2 := fun y hy => hcs y (List.mem_cons_of_mem c hy)
    by_cases h1 : c = gs "."
    · have he : cleanComps false acc (c :: rest) = cleanComps false acc rest := by
        conv_lhs => unfold cleanComps
        rw [if_pos h1]
      rw [he]
      exact ih acc g d hcs2 hacc hg
    · by_cases h2 : c = gs ".."
      · cases g with
        | nil =>
          cases d with
          | zero =>
            have hacc0 : acc = [] := by simpa using hacc
            have he : cleanComps false acc (c :: rest) =
                cleanComps false [gs ".."] rest := by
              rw [hacc0]
              conv_lhs => unfold cleanComps
              rw [if_neg h1, if_pos h2]
              rfl
            rw [he]
            exact ih [gs ".."] [] 1 hcs2 (by simp) (by simp)
          | succ d2 =>
            have hacc0 : acc = gs ".." :: List.replicate d2 (gs "..") := by
              simpa [List.replicate_succ] using hacc
            have he : cleanComps false acc (c :: rest) =
                cleanComps false (gs ".." :: gs ".." :: List.replicate d2 (gs "..")) rest := by
              rw [hacc0]
              conv_lhs => unfold cleanComps
              rw [if_neg h1, if_pos h2]
              simp
            rw [he]
            refine ih (gs ".." :: gs ".." :: List.replicate d2 (gs "..")) [] (d2 + 2)
              hcs2 ?_ (by simp)
            simp [List.replicate_succ]
        | cons g0 gt =>
          have hg0 : g0 ≠ gs ".." := (hg g0 (by simp)).1
          have hacc0 : acc = g0 :: (gt ++ List.replicate d (gs "..")) := by
            simpa using hacc
          have he : cleanComps false acc (c :: rest) =
              cleanComps false (gt ++ List.replicate d (gs "..")) rest := by
            rw [hacc0]
            conv_lhs => unfold cleanComps
            rw [if_neg h1, if_pos h2]
            simp [hg0]
          rw [he]
          exact ih _ gt d hcs2 rfl (fun x hx => hg x (List.mem_cons_of_mem _ hx))
      · have he : cleanComps false acc (c :: rest) = cleanComps false (c :: acc) rest := by
          conv_lhs => unfold cleanComps
          rw [if_neg h1, if_neg h2]
        rw [he]
        refine ih (c :: acc) (c :: g) d hcs2 (by rw [hacc]; rfl) ?_
        intro y hy
        rcases List.mem_cons.1 hy with h | h
        · rw [h]
          exact ⟨h2, h1, (hcs c (by simp)).1, (hcs c (by simp)).2⟩
        · exact hg y h

lemma joinWith_dotdot (d : Nat) (h : List GoStr) (hd : 0 < d) :
    joinWith '/' (List.replicate d (gs "..") ++ h) = gs ".." ∨
      gs "../" <+: joinWith '/' (List.replicate d (gs "..") ++ h) := by
  have hpre : ∀ w : GoStr, gs "../" <+: gs ".." ++ '/' :: w := by
    intro w
    exact ⟨w, rfl⟩
  cases d with
  | zero => exact absurd hd (by simp)
  | succ d2 =>
    rw [List.replicate_succ, List.cons_append]
    by_cases hnil : List.replicate d2 (gs "..") ++ h = []
    · rw [hnil]
      exact Or.inl rfl
    · right
      obtain ⟨t0, tt, ht⟩ : ∃ t0 tt, List.replicate d2 (gs "..") ++ h = t0 :: tt := by
        cases hh : List.replicate d2 (gs "..") ++ h with
        | nil => exact absurd hh hnil
        | cons a b => exact ⟨a, b, rfl⟩
      rw [ht]
      exact hpre _

lemma cleanName_comps (name : GoStr) (h0 : name ≠ []) (h1 : isAbs name = false)
    (h2 : pathClean name ≠ gs ".") (h3 : pathClean name ≠ gs "..")
    (h4 : ¬ gs "../" <+: pathClean name) :
    ∃ cs : List GoStr, cs ≠ [] ∧
      (∀ c ∈ cs, c ≠ [] ∧ c ≠ gs "." ∧ c ≠ gs ".." ∧ '/' ∉ c) ∧
      pathClean name = joinWith '/' cs := by
  have hclean : pathClean name =
      (if cleanComps false [] (splitc name) = [] then gs "."
       else joinWith '/' (cleanComps false [] (splitc name))) := by
    simp [pathClean, h0, h1]
  obtain ⟨g2, d2, hshape, hgood⟩ := cleanComps_unrooted_shape (splitc name) [] [] 0
    (splitcAux_elems name [] (by simp)) (by simp) (by simp)
  by_cases hnil : cleanComps false [] (splitc name) = []
  · rw [hnil] at hclean
    simp at hclean
    exact absurd hclean h2
  · have hjoin : pathClean name = joinWith '/' (cleanComps false [] (splitc name)) := by
      rw [hclean, if_neg hnil]
    cases hd2 : d2 with
    | zero =>
      rw [hd2] at hshape
      simp at hshape
      refine ⟨g2, ?_, ?_, ?_⟩
      · intro hg2
        rw [hg2] at hshape
        exact hnil hshape
      · intro c hc
        have hg := hgood c hc
        exact ⟨hg.2.2.1, hg.2.1, hg.1, hg.2.2.2⟩
      · rw [hjoin, hshape]
    | succ d3 =>
      exfalso
      have hpos : 0 < d2 := by rw [hd2]; omega
      rcases joinWith_dotdot d2 g2 hpos with hcase | hcase
      · apply h3
        rw [hjoin, hshape, hcase]
      · apply h4
        rw [hjoin, hshape]
        exact hcase

lemma workDir_comps (w : GoStr) (habs : isAbs w = true) (hclean : pathClean w = w)
    (hne : w ≠ gs "/") :
    ∃ ws : List GoStr, ws ≠ [] ∧
      (∀ c ∈ ws, c ≠ [] ∧ c ≠ gs "." ∧ c ≠ gs ".." ∧ '/' ∉ c) ∧
      w = '/' :: joinWith '/' ws ∧ splitc w = ws := by
  have h0 : w ≠ [] := by
    intro h
    rw [h] at habs
    simp [isAbs] at habs
  have hw : pathClean w = '/' :: joinWith '/' (cleanComps true [] (splitc w)) := by
    simp [pathClean, h0, habs]
  have heq : w = '/' :: joinWith '/' (cleanComps true [] (splitc w)) :=
    hclean.symm.trans hw
  have hgood := cleanComps_rooted_ok (splitc w) [] (splitcAux_elems w [] (by simp))
    (by simp)
  have hnil : cleanComps true [] (splitc w) ≠ [] := by
    intro h
    apply hne
    rw [heq, h]
    decide
  have hsplit : splitc w = cleanComps true [] (splitc w) := by
    conv_lhs => rw [heq]
    show splitcAux [] ('/' :: joinWith '/' (cleanComps true [] (splitc w))) = _
    have hstep : splitcAux [] ('/' :: joinWith '/' (cleanComps true [] (splitc w))) =
        splitcAux [] (joinWith '/' (cleanComps true [] (splitc w))) := by
      conv_lhs => unfold splitcAux
      rfl
    rw [hstep]
    exact splitc_joinWith _ fun c hc => ⟨(hgood c hc).1, (hgood c hc).2.2.2⟩
  exact ⟨_, hnil, hgood, heq, hsplit⟩

lemma pathJoin_under (w : GoStr) (cs : List GoStr)
    (habs : isAbs w = true) (hclean : pathClean w = w) (hne : w ≠ gs "/")
    (hcs : cs ≠ [])
    (hgoodcs : ∀ c ∈ cs, c ≠ [] ∧ c ≠ gs "." ∧ c ≠ gs ".." ∧ '/' ∉ c) :
    pathJoin w (joinWith '/' cs) = w ++ '/' :: joinWith '/' cs := by
  obtain ⟨ws, hwsne, hwsgood, heq, hsplit⟩ := workDir_comps w habs hclean hne
  have h0 : w ≠ [] := by
    intro h
    rw [h] at habs
    simp [isAbs] at habs
  have hjoin : pathJoin w (joinWith '/' cs) =
      pathClean (w ++ '/' :: joinWith '/' cs) := by
    unfold pathJoin
    rw [if_pos h0]
  have hsplit2 : splitc (w ++ '/' :: joinWith '/' cs) = ws ++ cs := by
    show splitcAux [] (w ++ '/' :: joinWith '/' cs) = ws ++ cs
    rw [splitcAux_append_sep w [] (joinWith '/' cs)]
    have e2 : splitcAux [] (joinWith '/' cs) = cs :=
      splitc_joinWith cs fun c hc => ⟨(hgoodcs c hc).1, (hgoodcs c hc).2.2.2⟩
    show splitc w ++ splitcAux [] (joinWith '/' cs) = ws ++ cs
    rw [hsplit, e2]
  have hne2 : w ++ '/' :: joinWith '/' cs ≠ [] := by simp
  have habs2 : isAbs (w ++ '/' :: joinWith '/' cs) = true := by
    rw [heq]
    rfl
  have hcc : cleanComps true [] (ws ++ cs) = ws ++ cs := by
    have hgd : ∀ c ∈ ws ++ cs, c ≠ gs "." ∧ c ≠ gs ".." := by
      intro c hc
      rcases List.mem_append.1 hc with h | h
      · exact ⟨(hwsgood c h).2.1, (hwsgood c h).2.2.1⟩
      · exact ⟨(hgoodcs c h).2.1, (hgoodcs c h).2.2.1⟩
    have := cleanComps_all_good (ws ++ cs) hgd true []
    simpa using this
  have hrender : pathClean (w ++ '/' :: joinWith '/' cs) =
      '/' :: joinWith '/' (ws ++ cs) := by
    simp [pathClean, hne2, habs2, hsplit2, hcc]
  rw [hjoin, hrender, joinWith_append '/' ws cs hwsne hcs]
  rw [heq]
  rfl

lemma resolveWorkPath_ok_shape (w n t : GoStr)
    (habs : isAbs w = true) (hclean : pathClean w = w) (hne : w ≠ gs "/")
    (h : resolveWorkPath w n = .ok t) :
    ∃ cs : List GoStr, cs ≠ [] ∧
      (∀ c ∈ cs, c ≠ [] ∧ c ≠ gs "." ∧ c ≠ gs ".." ∧ '/' ∉ c) ∧
      t = w ++ '/' :: joinWith '/' cs := by
  by_cases h0 : n = []
  · simp [resolveWorkPath, h0] at h
  · by_cases h1 : isAbs n = true
    · simp [resolveWorkPath, h0, h1] at h
    · have h1f : isAbs n = false := by simpa using h1
      by_cases hb : pathClean n = gs "." ∨ pathClean n = gs ".." ∨
          gs "../" <+: pathClean n
      · simp [resolveWorkPath, h0, h1, hb] at h
      · push_neg at hb
        obtain ⟨hA, hB, hC⟩ := hb
        obtain ⟨cs, hcsne, hcsgood, hcseq⟩ := cleanName_comps n h0 h1f hA hB hC
        have hcond : ¬(pathClean n = gs "." ∨ pathClean n = gs ".." ∨
            (gs "../").isPrefixOf (pathClean n) = true) := by
          push_neg
          exact ⟨hA, hB, fun hh => absurd (List.isPrefixOf_iff_prefix.1 hh) hC⟩
        have hr : resolveWorkPath w n =
            match pathRel w (pathJoin w (pathClean n)) with
            | .error _ => .error (gs "path escapes work dir")
            | .ok rel =>
              if rel = gs ".." ∨ (gs "../").isPrefixOf rel then
                .error (gs "path escapes work dir")
              else .ok (pathJoin w (pathClean n)) := by
          unfold resolveWorkPath
          rw [if_neg h0, if_neg h1, if_neg hcond]
        rw [hr] at h
        cases hrel : pathRel w (pathJoin w (pathClean n)) with
        | error e =>
          rw [hrel] at h
          simp at h
        | ok rel =>
          rw [hrel] at h
          by_cases hrel2 : rel = gs ".." ∨ gs "../" <+: rel
          · simp [hrel2] at h
          · simp [hrel2] at h
            refine ⟨cs, hcsne, hcsgood, ?_⟩
            rw [← h, hcseq]
            exact pathJoin_under w cs habs hclean hne hcsne hcsgood

/-- The claim's "relative form escapes the root" condition: `filepath.Rel` of
the join against the work dir fails, equals `..`, or begins with `../`. -/
def escapesWorkDir (workDir clean : GoStr) : Bool :=
  match pathRel workDir (pathJoin workDir clean) with
  | .error _ => true
  | .ok rel => decide (rel = gs ".." ∨ gs "../" <+: rel)

lemma resolveWorkPath_error_iff (w n : GoStr) :
    (∃ e, resolveWorkPath w n = .error e) ↔
      (n = [] ∨ isAbs n = true ∨ pathClean n = gs "." ∨ pathClean n = gs ".." ∨
       gs "../" <+: pathClean n ∨ escapesWorkDir w (pathClean n) = true) := by
  by_cases h0 : n = []
  · simp [resolveWorkPath, h0]
  · by_cases h1 : isAbs n = true
    · simp [resolveWorkPath, h0, h1]
    · by_cases hb : pathClean n = gs "." ∨ pathClean n = gs ".." ∨
          gs "../" <+: pathClean n
      · have he : resolveWorkPath w n = .error (gs "path traversal is not allowed") := by
          unfold resolveWorkPath
          rw [if_neg h0, if_neg h1, if_pos ?_]
          rcases hb with h | h | h
          · exact Or.inl h
          · exact Or.inr (Or.inl h)
          · exact Or.inr (Or.inr (List.isPrefixOf_iff_prefix.2 h))
        constructor
        · intro _
          rcases hb with h | h | h
          · exact Or.inr (Or.inr (Or.inl h))
          · exact Or.inr (Or.inr (Or.inr (Or.inl h)))
          · exact Or.inr (Or.inr (Or.inr (Or.inr (Or.inl h))))
        · intro _
          exact ⟨_, he⟩
      · have hb2 := hb
        push_neg at hb2
        obtain ⟨hA, hB, hC⟩ := hb2
        have hcond : ¬(pathClean n = gs "." ∨ pathClean n = gs ".." ∨
            (gs "../").isPrefixOf (pathClean n) = true) := by
          push_neg
          exact ⟨hA, hB, fun hh => absurd (List.isPrefixOf_iff_prefix.1 hh) hC⟩
        cases hrel : pathRel w (pathJoin w (pathClean n)) with
        | error e =>
          have hesc : escapesWorkDir w (pathClean n) = true := by
            unfold escapesWorkDir
            rw [hrel]
          have he : resolveWorkPath w n = .error (gs "path escapes work dir") := by
            unfold resolveWorkPath
            rw [if_neg h0, if_neg h1, if_neg hcond, hrel]
          simp [he, hesc]
        | ok rel =>
          by_cases hrel2 : rel = gs ".." ∨ gs "../" <+: rel
          · have hesc : escapesWorkDir w (pathClean n) = true := by
              unfold escapesWorkDir
              rw [hrel]
              simp [hrel2]
            have he : resolveWorkPath w n = .error (gs "path escapes work dir") := by
              unfold resolveWorkPath
              rw [if_neg h0, if_neg h1, if_neg hcond, hrel]
              rcases hrel2 with h | h
              · simp [h]
              · simp [h]
            simp [he, hesc]
          · have hesc : escapesWorkDir w (pathClean n) = false := by
              unfold escapesWorkDir
              rw [hrel]
              simp [hrel2]
            have hrel3 : rel ≠ gs ".." := fun hh => hrel2 (Or.inl hh)
            have hrel4 : ¬ gs "../" <+: rel := fun hh => hrel2 (Or.inr hh)
            have he : resolveWorkPath w n = .ok (pathJoin w (pathClean n)) := by
              unfold resolveWorkPath
              rw [if_neg h0, if_neg h1, if_neg hcond, hrel]
              simp [hrel3, hrel4]
            constructor
            · intro ⟨e, hee⟩
              rw [he] at hee
              simp at hee
            · intro hor
              rcases hor with h | h | h | h | h | h
              · exact absurd h h0
              · exact absurd h h1
              · exact absurd (Or.inl h) hb
              · exact absurd (Or.inr (Or.inl h)) hb
              · exact absurd (Or.inr (Or.inr h)) hb
              · rw [hesc] at h
                exact absurd h (by simp)

/-- Claim C2: the path validator errors exactly when the name is empty,
absolute, has a cleaned form equal to `.` or `..` or beginning with `../`, or
has a join with the work-dir root whose `Rel` form escapes the root; every
such error is surfaced by the handler as HTTP 400 with the validator's
message; and every accepted name yields a target path strictly under the
work-dir root (the root followed by a separator and clean, non-`..`
components). -/
theorem resolveWorkPath_correct :
    (∀ workDir name : GoStr,
      (∃ e, resolveWorkPath workDir name = .error e) ↔
        (name = [] ∨ isAbs name = true ∨ pathClean name = gs "." ∨
         pathClean name = gs ".." ∨ gs "../" <+: pathClean name ∨
         escapesWorkDir workDir (pathClean name) = true)) ∧
    (∀ (req : RunRequest) (env : EnvC1) (pre : List (GoStr × GoStr))
       (name content : GoStr) (rest : List (GoStr × GoStr)) (e : GoStr),
      req.cmd ≠ [] → env.mkdirTempErr = none → env.mountErr = none →
      env.mkdirWorkErr = none →
      (∀ x, env.writeErr x = none) → (∀ x, env.chmodErr x = none) →
      req.files = pre ++ (name, content) :: rest →
      (∀ p ∈ pre, ∃ tp, resolveWorkPath (env.mountDir ++ gs "/work") p.1 = .ok tp) →
      resolveWorkPath (env.mountDir ++ gs "/work") name = .error e →
      runHandler req env = (.httpErr 400 e, [])) ∧
    (∀ workDir name target : GoStr,
      isAbs workDir = true → pathClean workDir = workDir → workDir ≠ gs "/" →
      resolveWorkPath workDir name = .ok target →
      ∃ cs : List GoStr, cs ≠ [] ∧
        (∀ c ∈ cs, c ≠ [] ∧ c ≠ gs "." ∧ c ≠ gs ".." ∧ '/' ∉ c) ∧
        target = workDir ++ '/' :: joinWith '/' cs) := by
  refine ⟨resolveWorkPath_error_iff, ?_, ?_⟩
  · intro req env pre name content rest e hcmd hm1 hm2 hm3 hwr hch hfiles hpre he
    have hloop := stageLoop_first_bad (env.mountDir ++ gs "/work") env
      name content rest e hwr hch he pre hpre
    have hstage : stagePhase req env = some (.httpErr 400 e) := by
      unfold stagePhase
      rw [if_neg hcmd, hm1, hm2, hm3, hfiles, hloop]
    unfold runHandler
    rw [hstage]
  · intro workDir name target h1 h2 h3 h4
    exact resolveWorkPath_ok_shape workDir name target h1 h2 h3 h4

def absNameReq : RunRequest := ⟨gs "run", [(gs "/abs", gs "x")], 500⟩

theorem resolveWorkPath_correct_witness :
    (∃ e, resolveWorkPath (gs "/m/work") (gs "../evil") = .error e) ∧
    runHandler absNameReq benignEnvW =
      (.httpErr 400 (gs "absolute paths are not allowed"), []) ∧
    (∃ cs : List GoStr, cs ≠ [] ∧
      (∀ c ∈ cs, c ≠ [] ∧ c ≠ gs "." ∧ c ≠ gs ".." ∧ '/' ∉ c) ∧
      gs "/m/work/sub/f.txt" = gs "/m/work" ++ '/' :: joinWith '/' cs) :=
  ⟨(resolveWorkPath_correct.1 (gs "/m/work") (gs "../evil")).2
      (Or.inr (Or.inr (Or.inr (Or.inr (Or.inl (by decide)))))),
   resolveWorkPath_correct.2.1 absNameReq benignEnvW [] (gs "/abs") (gs "x") []
      (gs "absolute paths are not allowed") (by decide) rfl rfl rfl
      (fun _ => rfl) (fun _ => rfl) rfl (by simp) (by decide),
   resolveWorkPath_correct.2.2 (gs "/m/work") (gs "sub/f.txt") (gs "/m/work/sub/f.txt")
      (by decide) (by decide) (by decide) (by decide)⟩
